import Mathlib

/-!
Shallow embedding of the HomeObject shard manager
(`src/lib/homestore_backend/hs_shard_manager.cpp`) and proofs about its
replicated shard lifecycle: ID allocation, the `ShardInfo` JSON codec with
block-size zero padding, CRC verification at the committer, the idempotent
commit of CREATE_SHARD / SEAL_SHARD log entries, and the in-memory directory
(PG map, shard map, chunk bindings).

Machine integers are modelled as `Nat` (all the quantities involved are
unsigned); byte buffers are `List Nat` of byte values.  Code paths that end in
`RELEASE_ASSERT` failures (process abort) or escaped exceptions are modelled as
`none` of an `Option` result.
-/

namespace homeobject

/-! ## Association-list and list-index helpers

`std::map` / `std::unordered_map` lookups and updates, and stable list
iterators, are modelled with plain association lists and positional indices. -/

/-- Lookup of the first binding of key `k`, as `map.find(k)`. -/
def alookup {α β : Type} [DecidableEq α] (k : α) : List (α × β) → Option β
  | [] => none
  | (k', v) :: t => if k' = k then some v else alookup k t

/-- Pointwise update of every binding of key `k` (keys are unique in practice). -/
def aupdate {α β : Type} [DecidableEq α] (k : α) (f : β → β) : List (α × β) → List (α × β)
  | [] => []
  | (k', v) :: t => if k' = k then (k', f v) :: aupdate k f t else (k', v) :: aupdate k f t

/-- Positional read, modelling dereference of a stable list iterator. -/
def lget {α : Type} : List α → Nat → Option α
  | [], _ => none
  | a :: _, 0 => some a
  | _ :: t, n + 1 => lget t n

/-- Positional write, modelling mutation through a stable list iterator. -/
def lset {α : Type} : List α → Nat → α → List α
  | [], _, _ => []
  | _ :: t, 0, b => b :: t
  | a :: t, n + 1, b => a :: lset t n b

/-! ## CRC32-IEEE

Modelled from the spec: `crc32_ieee` comes from the sisl library (outside
`src/`); the spec fixes the reflected polynomial 0xEDB88320.  Bit operations
are written with structural fuel recursion (`xorBits`) so that everything
evaluates inside the kernel. -/

/-- Bitwise xor of the low `w` bits of `a` and `b`. -/
def xorBits : Nat → Nat → Nat → Nat
  | 0, _, _ => 0
  | w + 1, a, b => (a % 2 + b % 2) % 2 + 2 * xorBits w (a / 2) (b / 2)

/-- The reflected CRC32-IEEE polynomial. -/
def crcPoly : Nat := 0xEDB88320

/-- One bit step of the reflected CRC32 computation. -/
def crcRound (c : Nat) : Nat :=
  if c % 2 = 1 then xorBits 32 (c / 2) crcPoly else c / 2

/-- Fold one byte into the running CRC. -/
def crcByte (c b : Nat) : Nat := crcRound^[8] (xorBits 32 c b)

/-- `crc32_ieee(init, bytes, len)`: standard reflected CRC32 over a byte list. -/
def crc32_ieee (init : Nat) (bytes : List Nat) : Nat :=
  xorBits 32 (bytes.foldl crcByte (xorBits 32 init 0xFFFFFFFF)) 0xFFFFFFFF

/-- `init_crc32` seed used by the shard manager. -/
def init_crc32 : Nat := 0

/-- `k` little-endian bytes of `n` (for serializing header fields). -/
def natLE : Nat → Nat → List Nat
  | 0, _ => []
  | k + 1, n => n % 256 :: natLE k (n / 256)

/-! ## Data model

`ShardInfo` (spec section 3).  `ShardInfo::State` is an enum serialized through
its underlying integer; it is modelled as `Nat` with `OPEN = 0`, `SEALED = 1`
(modelled from the spec: the enum declaration lives outside `src/`). -/

/-- `ShardInfo::State::OPEN`. -/
def OPEN : Nat := 0

/-- `ShardInfo::State::SEALED`. -/
def SEALED : Nat := 1

/-- The logical shard record, fields in the source declaration order. -/
structure ShardInfo where
  id : Nat
  placement_group : Nat
  state : Nat
  created_time : Nat
  last_modified_time : Nat
  total_capacity_bytes : Nat
  available_capacity_bytes : Nat
  deleted_capacity_bytes : Nat
deriving DecidableEq, Repr

/-- The durable per-shard superblock: every `ShardInfo` field plus `chunk_id`. -/
structure shard_info_superblk where
  id : Nat
  placement_group : Nat
  state : Nat
  created_time : Nat
  last_modified_time : Nat
  available_capacity_bytes : Nat
  total_capacity_bytes : Nat
  deleted_capacity_bytes : Nat
  chunk_id : Nat
deriving DecidableEq, Repr

/-- A directory shard entry: in-memory `ShardInfo` plus its superblock. -/
structure HS_Shard where
  info : ShardInfo
  sb : shard_info_superblk
deriving DecidableEq, Repr

/-- `HS_Shard::write_sb()`: copy every `info` field into the superblock
(`chunk_id` is left untouched). -/
def HS_Shard.write_sb (s : HS_Shard) : HS_Shard :=
  { s with sb := { s.sb with
      id := s.info.id
      placement_group := s.info.placement_group
      state := s.info.state
      created_time := s.info.created_time
      last_modified_time := s.info.last_modified_time
      available_capacity_bytes := s.info.available_capacity_bytes
      total_capacity_bytes := s.info.total_capacity_bytes
      deleted_capacity_bytes := s.info.deleted_capacity_bytes } }

/-- `HS_Shard::update_info(info)`: replace the in-memory info and rewrite the
superblock. -/
def HS_Shard.update_info (s : HS_Shard) (i : ShardInfo) : HS_Shard :=
  HS_Shard.write_sb { s with info := i }

/-- The `HS_Shard(shard_info, chunk_id)` constructor: create the superblock,
record `chunk_id`, and `write_sb()`. -/
def HS_Shard.make (info : ShardInfo) (chunk : Nat) : HS_Shard :=
  HS_Shard.write_sb
    { info := info
      sb := { id := 0, placement_group := 0, state := 0, created_time := 0
              last_modified_time := 0, available_capacity_bytes := 0
              total_capacity_bytes := 0, deleted_capacity_bytes := 0
              chunk_id := chunk } }

/-- A directory PG entry (`HS_PG`): sequence counter, replication handle
(modelled as a presence flag), the ordered shard list, and the cached
any-allocated-chunk hint. -/
structure HS_PG where
  shard_sequence_num : Nat
  repl_dev : Bool
  shards : List HS_Shard
  any_allocated_chunk_id : Option Nat
deriving DecidableEq, Repr

/-- A call made into the process-wide chunk selector. -/
inductive SelectorCall : Type
  | select (chunk : Nat)
  | release (chunk : Nat)
deriving DecidableEq, Repr

/-- The replica state: the PG map, the shard-ID index mapping a shard ID to the
position (PG id, index) of its entry in that PG's shard list, and the trace of
chunk-selector calls issued so far. -/
structure HOState where
  pg_map : List (Nat × HS_PG)
  shard_map : List (Nat × (Nat × Nat))
  sel_calls : List SelectorCall
deriving DecidableEq, Repr

/-! ## Shard IDs -/

/-- `ShardManager::max_shard_num_in_pg()`: `1 << shard_width`.  The shard width
`w` is threaded as an explicit parameter (its constant lives outside `src/`). -/
def max_shard_num_in_pg (w : Nat) : Nat := 1 <<< w

/-- Modelled from the spec: `make_new_shard_id` (declared outside `src/`)
composes high PG bits with the low `w`-bit sequence. -/
def make_new_shard_id (w pg seq : Nat) : Nat := pg * 2 ^ w + seq

/-- `get_sequence_num_from_shard_id`: the source masks with
`max_shard_num_in_pg() - 1`; keeping the low `w` bits of a `Nat` is reduction
mod `2 ^ w` (see `get_sequence_num_eq_land` below). -/
def get_sequence_num_from_shard_id (w id : Nat) : Nat := id % 2 ^ w

/-- `generate_new_shard_id(pgid)`: assert the PG exists, pre-increment its
sequence number, assert the new sequence is below `max_shard_num_in_pg()`, and
compose the new ID.  `none` models the `RELEASE_ASSERT` aborts. -/
def generate_new_shard_id (w : Nat) (σ : HOState) (pgid : Nat) : Option (Nat × HOState) :=
  match alookup pgid σ.pg_map with
  | none => none
  | some pg =>
    let new_sequence_num := pg.shard_sequence_num + 1
    if new_sequence_num < max_shard_num_in_pg w then
      some (make_new_shard_id w pgid new_sequence_num,
        { σ with pg_map := (aupdate pgid
            (fun q => { q with shard_sequence_num := q.shard_sequence_num + 1 }) σ.pg_map) })
    else none

/-! ## Codec

`serialize_shard_info` builds an nlohmann JSON object
`{"shard_info": {field: value, ...}}` and dumps it; nlohmann dumps object keys
in sorted order with no whitespace, and unsigned fields as decimal numerals.
`deserialize_shard_info` parses the buffer and reads the fields back by key.
The parser below covers exactly that grammar (one-level keyed objects of
unsigned decimals) and, like nlohmann's lexer, treats a NUL byte as
end-of-input — which is what makes the trailing block-alignment zero padding
acceptable. -/

/-- Byte value of a double quote. -/
def QUOTE : Nat := 34

/-- Byte value of a comma. -/
def COMMA : Nat := 44

/-- Byte value of a colon. -/
def COLON : Nat := 58

/-- Byte value of an opening brace. -/
def LBRACE : Nat := 123

/-- Byte value of a closing brace. -/
def RBRACE : Nat := 125

/-- ASCII bytes of the outer key, "shard_info". -/
def key_shard_info : List Nat := [115, 104, 97, 114, 100, 95, 105, 110, 102, 111]

/-- ASCII bytes of "shard_id_t". -/
def key_shard_id : List Nat := [115, 104, 97, 114, 100, 95, 105, 100, 95, 116]

/-- ASCII bytes of "pg_id_t". -/
def key_pg_id : List Nat := [112, 103, 95, 105, 100, 95, 116]

/-- ASCII bytes of "state". -/
def key_state : List Nat := [115, 116, 97, 116, 101]

/-- ASCII bytes of "created_time". -/
def key_created_time : List Nat := [99, 114, 101, 97, 116, 101, 100, 95, 116, 105, 109, 101]

/-- ASCII bytes of "modified_time". -/
def key_modified_time : List Nat := [109, 111, 100, 105, 102, 105, 101, 100, 95, 116, 105, 109, 101]

/-- ASCII bytes of "total_capacity". -/
def key_total_capacity : List Nat := [116, 111, 116, 97, 108, 95, 99, 97, 112, 97, 99, 105, 116, 121]

/-- ASCII bytes of "available_capacity". -/
def key_available_capacity : List Nat :=
  [97, 118, 97, 105, 108, 97, 98, 108, 101, 95, 99, 97, 112, 97, 99, 105, 116, 121]

/-- ASCII bytes of "deleted_capacity". -/
def key_deleted_capacity : List Nat :=
  [100, 101, 108, 101, 116, 101, 100, 95, 99, 97, 112, 97, 99, 105, 116, 121]

/-- Decimal digit bytes of `n`, most significant first (accumulator form). -/
def natDumpAux (n : Nat) (acc : List Nat) : List Nat :=
  if n < 10 then (48 + n) :: acc
  else natDumpAux (n / 10) ((48 + n % 10) :: acc)
termination_by n
decreasing_by exact Nat.div_lt_self (by omega) (by omega)

/-- Decimal digit bytes of `n`, as nlohmann dumps an unsigned number. -/
def natDump (n : Nat) : List Nat := natDumpAux n []

/-- One `"key":value` member of the dumped inner object. -/
def encMember (k : List Nat) (v : Nat) : List Nat :=
  QUOTE :: k ++ QUOTE :: COLON :: natDump v

/-- The members of a dumped object, comma separated, with the closing brace. -/
def encBody : List (List Nat × Nat) → List Nat
  | [] => [RBRACE]
  | (k, v) :: [] => encMember k v ++ [RBRACE]
  | (k, v) :: p :: ps => encMember k v ++ COMMA :: encBody (p :: ps)

/-- The inner-object members of `serialize_shard_info`, in nlohmann's sorted
key order. -/
def shardInfoPairs (x : ShardInfo) : List (List Nat × Nat) :=
  [(key_available_capacity, x.available_capacity_bytes),
   (key_created_time, x.created_time),
   (key_deleted_capacity, x.deleted_capacity_bytes),
   (key_modified_time, x.last_modified_time),
   (key_pg_id, x.placement_group),
   (key_shard_id, x.id),
   (key_state, x.state),
   (key_total_capacity, x.total_capacity_bytes)]

/-- `serialize_shard_info(info)`: the dumped bytes of
`{"shard_info":{"available_capacity":A,...,"total_capacity":U}}`. -/
def serialize_shard_info (x : ShardInfo) : List Nat :=
  LBRACE :: QUOTE ::
    (key_shard_info ++ QUOTE :: COLON :: LBRACE :: (encBody (shardInfoPairs x) ++ [RBRACE]))

/-- Consume one expected byte. -/
def expectByte (b : Nat) : List Nat → Option (List Nat)
  | c :: cs => if c = b then some cs else none
  | [] => none

/-- Accumulate decimal digits; stops at the first non-digit byte. -/
def parseNatAux : List Nat → Nat → Nat × List Nat
  | b :: bs, acc =>
    if 48 ≤ b ∧ b ≤ 57 then parseNatAux bs (acc * 10 + (b - 48)) else (acc, b :: bs)
  | [], acc => (acc, [])

/-- Parse a decimal number (at least one digit required). -/
def parseNum (s : List Nat) : Option (Nat × List Nat) :=
  match s with
  | b :: bs => if 48 ≤ b ∧ b ≤ 57 then some (parseNatAux (b :: bs) 0) else none
  | [] => none

/-- After an opening quote: the key bytes up to the closing quote. -/
def parseKeyAux : List Nat → Option (List Nat × List Nat)
  | [] => none
  | b :: bs =>
    if b = QUOTE then some ([], bs)
    else (parseKeyAux bs).map (fun p => (b :: p.1, p.2))

/-- Parse a quoted key. -/
def parseKey : List Nat → Option (List Nat × List Nat)
  | b :: bs => if b = QUOTE then parseKeyAux bs else none
  | [] => none

/-- Parse the comma-separated `"key":number` members of an object, consuming
the closing brace.  Fuelled by the input length. -/
def parseMembers : Nat → List Nat → Option (List (List Nat × Nat) × List Nat)
  | 0, _ => none
  | fuel + 1, s => do
    let (k, s1) ← parseKey s
    let s2 ← expectByte COLON s1
    let (v, s3) ← parseNum s2
    match s3 with
    | [] => none
    | c :: cs =>
      if c = COMMA then do
        let (ps, r) ← parseMembers fuel cs
        some ((k, v) :: ps, r)
      else if c = RBRACE then some ([(k, v)], cs)
      else none

/-- Parse a `{...}` object of numeric members. -/
def parseObj (fuel : Nat) (s : List Nat) : Option (List (List Nat × Nat) × List Nat) :=
  match s with
  | [] => none
  | b :: bs =>
    if b = LBRACE then
      match bs with
      | [] => none
      | c :: cs => if c = RBRACE then some ([], cs) else parseMembers fuel (c :: cs)
    else none

/-- nlohmann's lexer returns end-of-input at the end of the range or at the
first NUL byte (which is how zero padding after the JSON value is tolerated). -/
def endOfInput : List Nat → Bool
  | [] => true
  | b :: _ => b = 0

/-- `deserialize_shard_info(json_str, str_size)`: parse the buffer (with the
padded size, as the committer passes it) and read every field back by key.
A parse error or missing field (an nlohmann exception) is `none`. -/
def deserialize_shard_info (s : List Nat) : Option ShardInfo := do
  let s1 ← expectByte LBRACE s
  let (k, s2) ← parseKey s1
  let s3 ← expectByte COLON s2
  let (ps, s4) ← parseObj s.length s3
  let s5 ← expectByte RBRACE s4
  if endOfInput s5 then
    if k = key_shard_info then do
      let i ← alookup key_shard_id ps
      let pg ← alookup key_pg_id ps
      let st ← alookup key_state ps
      let ct ← alookup key_created_time ps
      let mt ← alookup key_modified_time ps
      let av ← alookup key_available_capacity ps
      let tt ← alookup key_total_capacity ps
      let dl ← alookup key_deleted_capacity ps
      some { id := i, placement_group := pg, state := st, created_time := ct
             last_modified_time := mt, total_capacity_bytes := tt
             available_capacity_bytes := av, deleted_capacity_bytes := dl }
    else none
  else none

/-- `sisl::round_up(n, b)`: round `n` up to a multiple of the block size `b`. -/
def round_up (n b : Nat) : Nat := (n + b - 1) / b * b

/-- The proposer's framing: pad the serialized message with zero bytes up to
the block-size round-up (`memset` of the aligned buffer). -/
def padPayload (bs : Nat) (s : List Nat) : List Nat :=
  s ++ List.replicate (round_up s.length bs - s.length) 0

/-! ## Replication message header

Modelled from the spec: `ReplicationMessageHeader` is declared in
`replication_message.hpp`, which is not under `src/`.  Per spec section 4.2 it
carries `msg_type`, `pg_id`, `shard_id`, `payload_size`, `payload_crc`, and a
`header_crc` finalised by `seal()` over all preceding header bytes;
`corrupted()` re-checks that CRC. -/

/-- The shard-related replication message opcodes. -/
inductive ReplicationMessageType : Type
  | CREATE_SHARD_MSG
  | SEAL_SHARD_MSG
deriving DecidableEq, Repr

/-- Numeric opcode used when serializing the header. -/
def msgTypeNat : ReplicationMessageType → Nat
  | .CREATE_SHARD_MSG => 1
  | .SEAL_SHARD_MSG => 2

/-- The framing header of a shard replication message. -/
structure ReplicationMessageHeader where
  msg_type : ReplicationMessageType
  pg_id : Nat
  shard_id : Nat
  payload_size : Nat
  payload_crc : Nat
  header_crc : Nat
deriving DecidableEq, Repr

/-- The header bytes preceding `header_crc` (little-endian fields). -/
def headerBytes (h : ReplicationMessageHeader) : List Nat :=
  natLE 1 (msgTypeNat h.msg_type) ++ natLE 2 h.pg_id ++ natLE 8 h.shard_id ++
    natLE 4 h.payload_size ++ natLE 4 h.payload_crc

/-- `header.seal()`: finalise `header_crc` over the preceding header bytes. -/
def sealHeader (h : ReplicationMessageHeader) : ReplicationMessageHeader :=
  { h with header_crc := crc32_ieee init_crc32 (headerBytes h) }

/-- `header.corrupted()`: the stored `header_crc` disagrees with the CRC of the
preceding header bytes. -/
def corrupted (h : ReplicationMessageHeader) : Bool :=
  h.header_crc != crc32_ieee init_crc32 (headerBytes h)

/-- The recoverable errors surfaced to shard-manager callers. -/
inductive ShardError : Type
  | UNKNOWN_PG
  | PG_NOT_READY
  | CRC_MISMATCH
deriving DecidableEq, Repr

/-! ## Directory lookups and mutations -/

/-- Dereference the shard-ID index entry for `id`: find it in `_shard_map`
and follow the stored (PG, position) back-reference into the PG's shard list. -/
def derefShard (σ : HOState) (id : Nat) : Option HS_Shard :=
  match alookup id σ.shard_map with
  | none => none
  | some pr =>
    match alookup pr.1 σ.pg_map with
    | none => none
    | some pg => lget pg.shards pr.2

/-- `get_shard_chunk(id)`: `nullopt` when `id` is not in the shard map, else
the `chunk_id` recorded in the shard's superblock. -/
def get_shard_chunk (σ : HOState) (id : Nat) : Option Nat :=
  (derefShard σ id).map (fun s => s.sb.chunk_id)

/-- `get_any_chunk_id(pg_id)`: assert the PG exists (`none` = abort); return
the cached chunk hint, else `nullopt` for an empty PG, else cache and return
the first shard's chunk.  The result pairs the returned value with the
(possibly cache-updated) state. -/
def get_any_chunk_id (σ : HOState) (pgid : Nat) : Option (Option Nat × HOState) :=
  match alookup pgid σ.pg_map with
  | none => none
  | some pg =>
    match pg.any_allocated_chunk_id with
    | some c => some (some c, σ)
    | none =>
      match pg.shards with
      | [] => some (none, σ)
      | s :: _ =>
        some (some s.sb.chunk_id,
          { σ with pg_map := (aupdate pgid
              (fun q => { q with any_allocated_chunk_id := some s.sb.chunk_id }) σ.pg_map) })

/-- `add_new_shard_to_map`: assert the PG exists, append the shard to the PG's
ordered list, insert the back-reference into the shard map asserting the ID is
new, and raise the PG's `shard_sequence_num` to at least the shard's sequence. -/
def add_new_shard_to_map (w : Nat) (σ : HOState) (shard : HS_Shard) : Option HOState :=
  match alookup shard.info.placement_group σ.pg_map with
  | none => none
  | some pg =>
    match alookup shard.info.id σ.shard_map with
    | some _ => none
    | none =>
      let sequence_num := get_sequence_num_from_shard_id w shard.info.id
      some { σ with
        pg_map := (aupdate shard.info.placement_group
          (fun q => { q with
            shards := q.shards ++ [shard]
            shard_sequence_num :=
              (if q.shard_sequence_num < sequence_num then sequence_num
               else q.shard_sequence_num) }) σ.pg_map)
        shard_map :=
          (σ.shard_map ++ [(shard.info.id, (shard.info.placement_group, pg.shards.length))]) }

/-- `update_shard_in_map(shard_info)`: assert the shard exists, then
`update_info` it in place (rewriting its superblock). -/
def update_shard_in_map (σ : HOState) (shard_info : ShardInfo) : Option HOState :=
  match alookup shard_info.id σ.shard_map with
  | none => none
  | some pr =>
    match alookup pr.1 σ.pg_map with
    | none => none
    | some pg =>
      match lget pg.shards pr.2 with
      | none => none
      | some s =>
        some { σ with pg_map := (aupdate pr.1
            (fun q => { q with shards := lset q.shards pr.2 (HS_Shard.update_info s shard_info) })
            σ.pg_map) }

/-! ## The committer -/

/-- The switch of `do_shard_message_commit` after CRC verification and
deserialization: apply one committed CREATE_SHARD / SEAL_SHARD entry.
`chunk` is `blkids.chunk_num()`.  Chunk-selector calls are appended to the
state's call trace.  `none` models the `RELEASE_ASSERT` aborts. -/
def apply_shard_message (w : Nat) (mt : ReplicationMessageType) (shard_info : ShardInfo)
    (chunk : Nat) (σ : HOState) : Option HOState :=
  match mt with
  | .CREATE_SHARD_MSG =>
    if (alookup shard_info.id σ.shard_map).isSome then some σ
    else
      match add_new_shard_to_map w σ (HS_Shard.make shard_info chunk) with
      | none => none
      | some σ1 => some { σ1 with sel_calls := σ1.sel_calls ++ [SelectorCall.select chunk] }
  | .SEAL_SHARD_MSG =>
    match (derefShard σ shard_info.id).map (fun s => s.info.state) with
    | none => none
    | some state =>
      if state = OPEN then
        match get_shard_chunk σ shard_info.id with
        | none => none
        | some chunk_id =>
          update_shard_in_map
            { σ with sel_calls := σ.sel_calls ++ [SelectorCall.release chunk_id] } shard_info
      else some σ

/-- `do_shard_message_commit(lsn, header, blkids, value, hs_ctx)`: verify the
header CRC and the payload CRC, deserialize, and apply.  The second component
of the result is the resolution of the proposer's future (present only when
`hs_ctx` is the proposer's).  `none` models aborts/escaped exceptions. -/
def do_shard_message_commit (w : Nat) (σ : HOState) (lsn : Nat)
    (header : ReplicationMessageHeader) (chunk : Nat) (value : List Nat)
    (is_proposer : Bool) : Option (HOState × Option (Except ShardError ShardInfo)) :=
  if corrupted header then
    some (σ, if is_proposer then some (Except.error ShardError.CRC_MISMATCH) else none)
  else if crc32_ieee init_crc32 value ≠ header.payload_crc then
    some (σ, if is_proposer then some (Except.error ShardError.CRC_MISMATCH) else none)
  else
    match deserialize_shard_info value with
    | none => none
    | some shard_info =>
      match apply_shard_message w header.msg_type shard_info chunk σ with
      | none => none
      | some σ1 =>
        some (σ1, if is_proposer then some (Except.ok shard_info) else none)

/-- A decoded committed log entry (opcode, payload record, chunk of the entry's
block IDs). -/
structure LogEntry where
  msg_type : ReplicationMessageType
  info : ShardInfo
  chunk : Nat
deriving DecidableEq, Repr

/-- Apply a prefix of the committed log in order. -/
def applyEntries (w : Nat) : List LogEntry → HOState → Option HOState
  | [], σ => some σ
  | e :: es, σ =>
    match apply_shard_message w e.msg_type e.info e.chunk σ with
    | none => none
    | some σ' => applyEntries w es σ'

/-! ## The proposer -/

/-- A framed proposal handed to `repl_dev->async_alloc_write`: the sealed
header and the padded payload. -/
structure ShardSubmission where
  header : ReplicationMessageHeader
  payload : List Nat
deriving DecidableEq, Repr

/-- `_create_shard(pg_owner, size_bytes)`: fail with `UNKNOWN_PG` when the PG
is absent and `PG_NOT_READY` when its replication handle is null; otherwise
allocate a new shard ID, build a fresh OPEN `ShardInfo` stamped `now`,
serialize, pad, CRC, seal, and submit.  `bs` is the device block size; the
state in the result carries the sequence-number increment. -/
def _create_shard (w bs : Nat) (σ : HOState) (pg_owner size_bytes now : Nat) :
    Option (Except ShardError ShardSubmission × HOState) :=
  match alookup pg_owner σ.pg_map with
  | none => some (Except.error ShardError.UNKNOWN_PG, σ)
  | some pg =>
    if pg.repl_dev = false then some (Except.error ShardError.PG_NOT_READY, σ)
    else
      match generate_new_shard_id w σ pg_owner with
      | none => none
      | some (new_shard_id, σ') =>
        let msg := serialize_shard_info
          { id := new_shard_id, placement_group := pg_owner, state := OPEN
            created_time := now, last_modified_time := now
            total_capacity_bytes := size_bytes, available_capacity_bytes := size_bytes
            deleted_capacity_bytes := 0 }
        let padded := padPayload bs msg
        some (Except.ok
          { header := (sealHeader
              { msg_type := ReplicationMessageType.CREATE_SHARD_MSG, pg_id := pg_owner
                shard_id := new_shard_id, payload_size := padded.length
                payload_crc := crc32_ieee init_crc32 padded, header_crc := 0 })
            payload := padded }, σ')

/-- `_seal_shard(info)`: `RELEASE_ASSERT` that the PG exists and its
replication handle is non-null (`none` = process abort), then copy the
supplied `ShardInfo`, set `state = SEALED`, serialize, pad, CRC, seal, and
submit. -/
def _seal_shard (bs : Nat) (σ : HOState) (info : ShardInfo) :
    Option (Except ShardError ShardSubmission × HOState) :=
  match alookup info.placement_group σ.pg_map with
  | none => none
  | some pg =>
    if pg.repl_dev = false then none
    else
      let shard_info := { info with state := SEALED }
      let msg := serialize_shard_info shard_info
      let padded := padPayload bs msg
      some (Except.ok
        { header := (sealHeader
            { msg_type := ReplicationMessageType.SEAL_SHARD_MSG
              pg_id := info.placement_group, shard_id := info.id
              payload_size := padded.length
              payload_crc := crc32_ieee init_crc32 padded, header_crc := 0 })
          payload := padded }, σ)

/-! ## Derived notions used by the theorems -/

/-- Directory well-formedness: every shard-map binding dereferences to a shard
entry whose recorded ID is the binding's key.  This holds in every reachable
state (see `apply_shard_message_preserves`). -/
def WFdir (σ : HOState) : Prop :=
  ∀ pr ∈ σ.shard_map, (derefShard σ pr.1).map (fun s => s.info.id) = some pr.1

instance (σ : HOState) : Decidable (WFdir σ) := by
  unfold WFdir; infer_instance

/-- The maximum low-`w` sequence of any CREATE_SHARD entry of a log prefix
(folded left to right, starting from `b`). -/
def maxCreateSeqFrom (w : Nat) (b : Nat) (es : List LogEntry) : Nat :=
  es.foldl
    (fun m e =>
      if e.msg_type = ReplicationMessageType.CREATE_SHARD_MSG then
        max m (get_sequence_num_from_shard_id w e.info.id)
      else m) b

/-- The maximum low-`w` sequence of any CREATE_SHARD entry of a log prefix. -/
def maxCreateSeq (w : Nat) (es : List LogEntry) : Nat := maxCreateSeqFrom w 0 es

/-- `n` successive `generate_new_shard_id` calls for one PG, collecting the
allocated IDs. -/
def allocSeqIds (w pgid : Nat) : Nat → HOState → Option (List Nat)
  | 0, _ => some []
  | n + 1, σ =>
    match generate_new_shard_id w σ pgid with
    | none => none
    | some (id, σ') => (allocSeqIds w pgid n σ').map (fun ids => id :: ids)

/-! ## Association-list and index lemmas -/

theorem alookup_append_left {α β : Type} [DecidableEq α] {k : α} {l1 : List (α × β)}
    {v : β} (l2 : List (α × β)) (h : alookup k l1 = some v) :
    alookup k (l1 ++ l2) = some v := by
  induction l1 with
  | nil => simp [alookup] at h
  | cons p t ih =>
    obtain ⟨k', v'⟩ := p
    simp only [alookup, List.cons_append] at h ⊢
    split at h
    · simpa [*] using h
    · simp [*, ih h]

theorem alookup_append_right {α β : Type} [DecidableEq α] {k : α} {l1 : List (α × β)}
    (l2 : List (α × β)) (h : alookup k l1 = none) :
    alookup k (l1 ++ l2) = alookup k l2 := by
  induction l1 with
  | nil => simp
  | cons p t ih =>
    obtain ⟨k', v'⟩ := p
    simp only [alookup, List.cons_append] at h ⊢
    split at h
    · exact absurd h (by simp)
    · simp [*, ih h]

theorem alookup_mem {α β : Type} [DecidableEq α] {k : α} {l : List (α × β)} {v : β}
    (h : alookup k l = some v) : (k, v) ∈ l := by
  induction l with
  | nil => simp [alookup] at h
  | cons p t ih =>
    obtain ⟨k', v'⟩ := p
    simp only [alookup] at h
    split at h
    · obtain rfl := Option.some.inj h
      simp [*]
    · simp [ih h]

theorem alookup_none_ne {α β : Type} [DecidableEq α] {k : α} {l : List (α × β)}
    (h : alookup k l = none) : ∀ pr ∈ l, pr.1 ≠ k := by
  induction l with
  | nil => simp
  | cons p t ih =>
    obtain ⟨k', v'⟩ := p
    by_cases hk : k' = k
    · simp [alookup, hk] at h
    · simp only [alookup, if_neg hk] at h
      intro pr hpr
      rcases List.mem_cons.1 hpr with rfl | hpr
      · simpa using hk
      · exact ih h pr hpr

theorem alookup_aupdate_self {α β : Type} [DecidableEq α] (k : α) (f : β → β)
    (l : List (α × β)) : alookup k (aupdate k f l) = (alookup k l).map f := by
  induction l with
  | nil => simp [alookup, aupdate]
  | cons p t ih =>
    obtain ⟨k', v'⟩ := p
    by_cases h : k' = k
    · subst h
      simp [alookup, aupdate, ih]
    · simp [alookup, aupdate, h, ih]

theorem alookup_aupdate_ne {α β : Type} [DecidableEq α] {k k2 : α} (f : β → β)
    (l : List (α × β)) (h : k ≠ k2) : alookup k2 (aupdate k f l) = alookup k2 l := by
  induction l with
  | nil => simp [aupdate]
  | cons p t ih =>
    obtain ⟨k', v'⟩ := p
    by_cases hk : k' = k
    · subst hk
      simp [alookup, aupdate, h, ih]
    · by_cases hk2 : k' = k2 <;> simp [alookup, aupdate, hk, hk2, Ne.symm h, ih]

theorem lget_some_lt {α : Type} : ∀ {l : List α} {i : Nat} {a : α},
    lget l i = some a → i < l.length := by
  intro l
  induction l with
  | nil => intro i a h; simp [lget] at h
  | cons b t ih =>
    intro i a h
    cases i with
    | zero => simp
    | succ j => exact Nat.succ_lt_succ (ih h)

theorem lget_append_left {α : Type} : ∀ {l : List α} {i : Nat} (r : List α),
    i < l.length → lget (l ++ r) i = lget l i := by
  intro l
  induction l with
  | nil => intro i r h; simp at h
  | cons b t ih =>
    intro i r h
    cases i with
    | zero => simp [lget]
    | succ j => simpa [lget] using ih r (by simpa using h)

theorem lget_append_length {α : Type} (l : List α) (a : α) :
    lget (l ++ [a]) l.length = some a := by
  induction l with
  | nil => simp [lget]
  | cons b t ih => simpa [lget] using ih

theorem lget_lset_self {α : Type} : ∀ {l : List α} {i : Nat} (b : α),
    i < l.length → lget (lset l i b) i = some b := by
  intro l
  induction l with
  | nil => intro i b h; simp at h
  | cons c t ih =>
    intro i b h
    cases i with
    | zero => simp [lget, lset]
    | succ j => simpa [lget, lset] using ih b (by simpa using h)

theorem lget_lset_ne {α : Type} : ∀ {l : List α} {i j : Nat} (b : α),
    i ≠ j → lget (lset l j b) i = lget l i := by
  intro l
  induction l with
  | nil => intro i j b _; simp [lset]
  | cons c t ih =>
    intro i j b h
    cases j with
    | zero =>
      cases i with
      | zero => exact absurd rfl h
      | succ i' => simp [lget, lset]
    | succ j' =>
      cases i with
      | zero => simp [lget, lset]
      | succ i' => simpa [lget, lset] using ih b (by omega)

/-! ## Codec lemmas: the serializer's output parses back -/

theorem natDumpAux_append (n : Nat) : ∀ acc, natDumpAux n acc = natDump n ++ acc := by
  induction n using Nat.strong_induction_on with
  | _ n ih =>
    intro acc
    have hn : ∀ a : List Nat, natDumpAux n a =
        if n < 10 then (48 + n) :: a else natDumpAux (n / 10) ((48 + n % 10) :: a) :=
      fun a => by rw [natDumpAux]
    rw [natDump, hn acc, hn []]
    by_cases h : n < 10
    · simp [h]
    · have hd : n / 10 < n := Nat.div_lt_self (by omega) (by omega)
      simp only [h, if_false]
      rw [ih (n / 10) hd ((48 + n % 10) :: acc), ih (n / 10) hd [48 + n % 10]]
      simp

theorem natDump_digits {n : Nat} : ∀ b ∈ natDump n, 48 ≤ b ∧ b ≤ 57 := by
  induction n using Nat.strong_induction_on with
  | _ n ih =>
    by_cases h : n < 10
    · rw [natDump, natDumpAux]
      simp only [h, if_true]
      intro b hb
      rcases List.mem_singleton.1 hb with rfl
      omega
    · have hd : n / 10 < n := Nat.div_lt_self (by omega) (by omega)
      have hm : n % 10 < 10 := Nat.mod_lt _ (by omega)
      rw [natDump, natDumpAux]
      simp only [h, if_false]
      rw [natDumpAux_append]
      intro b hb
      rcases List.mem_append.1 hb with hb | hb
      · exact ih (n / 10) hd b hb
      · rcases List.mem_singleton.1 hb with rfl
        omega

theorem natDump_cons (n : Nat) : ∃ d ds, natDump n = d :: ds := by
  induction n using Nat.strong_induction_on with
  | _ n ih =>
    by_cases h : n < 10
    · exact ⟨48 + n, [], by rw [natDump, natDumpAux]; simp [h]⟩
    · have hd : n / 10 < n := Nat.div_lt_self (by omega) (by omega)
      obtain ⟨d, ds, hds⟩ := ih (n / 10) hd
      refine ⟨d, ds ++ [48 + n % 10], ?_⟩
      rw [natDump, natDumpAux]
      simp only [h, if_false]
      rw [natDumpAux_append, hds]
      simp

theorem parseNatAux_natDump (n : Nat) :
    ∀ rest acc, parseNatAux (natDump n ++ rest) acc =
      parseNatAux rest (acc * 10 ^ (natDump n).length + n) := by
  induction n using Nat.strong_induction_on with
  | _ n ih =>
    intro rest acc
    by_cases h : n < 10
    · have hdump : natDump n = [48 + n] := by rw [natDump, natDumpAux]; simp [h]
      rw [hdump]
      simp only [List.cons_append, List.nil_append, parseNatAux, List.length_cons,
        List.length_nil]
      rw [if_pos (by omega)]
      congr 1
      omega
    · have hd : n / 10 < n := Nat.div_lt_self (by omega) (by omega)
      have hdump : natDump n = natDump (n / 10) ++ [48 + n % 10] := by
        rw [natDump, natDumpAux]
        simp only [h, if_false]
        rw [natDumpAux_append]
      rw [hdump, List.append_assoc, ih (n / 10) hd, List.singleton_append, parseNatAux]
      rw [if_pos (by omega)]
      congr 1
      have hmod : n / 10 * 10 + n % 10 = n := by omega
      have h48 : 48 + n % 10 - 48 = n % 10 := by omega
      simp only [List.length_append, List.length_cons, List.length_nil, h48, pow_succ,
        pow_zero, Nat.zero_add, one_mul]
      calc (acc * 10 ^ (natDump (n / 10)).length + n / 10) * 10 + n % 10
          = acc * (10 ^ (natDump (n / 10)).length * 10) + (n / 10 * 10 + n % 10) := by ring
        _ = acc * (10 ^ (natDump (n / 10)).length * 10) + n := by rw [hmod]

theorem parseNum_natDump {c : Nat} (n : Nat) (cs : List Nat) (hc : ¬(48 ≤ c ∧ c ≤ 57)) :
    parseNum (natDump n ++ c :: cs) = some (n, c :: cs) := by
  obtain ⟨d, ds, hds⟩ := natDump_cons n
  have hdig : 48 ≤ d ∧ d ≤ 57 := natDump_digits d (by rw [hds]; simp)
  rw [hds, List.cons_append, parseNum, if_pos hdig, ← List.cons_append, ← hds,
    parseNatAux_natDump]
  simp only [parseNatAux, if_neg hc]
  simp

theorem parseKeyAux_enc {k : List Nat} (rest : List Nat) (hk : ∀ b ∈ k, b ≠ QUOTE) :
    parseKeyAux (k ++ QUOTE :: rest) = some (k, rest) := by
  induction k with
  | nil => simp [parseKeyAux]
  | cons b t ih =>
    have hb : b ≠ QUOTE := hk b (by simp)
    have ht : ∀ b ∈ t, b ≠ QUOTE := fun b hb => hk b (by simp [hb])
    simp [parseKeyAux, hb, ih ht]

theorem parseKey_enc {k : List Nat} (rest : List Nat) (hk : ∀ b ∈ k, b ≠ QUOTE) :
    parseKey (QUOTE :: (k ++ QUOTE :: rest)) = some (k, rest) := by
  simp [parseKey, parseKeyAux_enc rest hk]

theorem parseMembers_encBody :
    ∀ (ps : List (List Nat × Nat)) (rest : List Nat) (fuel : Nat), ps ≠ [] →
      (∀ p ∈ ps, ∀ b ∈ p.1, b ≠ QUOTE) → ps.length ≤ fuel →
      parseMembers fuel (encBody ps ++ rest) = some (ps, rest) := by
  intro ps
  induction ps with
  | nil => intro rest fuel h; exact absurd rfl h
  | cons hd tl ih =>
    obtain ⟨k, v⟩ := hd
    intro rest fuel _ hkeys hfuel
    have hkq : ∀ b ∈ k, b ≠ QUOTE := hkeys (k, v) (by simp)
    obtain ⟨f, rfl⟩ : ∃ f, fuel = f + 1 := by
      cases fuel
      · simp at hfuel
      · exact ⟨_, rfl⟩
    cases tl with
    | nil =>
      have hshape : encBody [(k, v)] ++ rest =
          QUOTE :: (k ++ QUOTE :: COLON :: (natDump v ++ RBRACE :: rest)) := by
        simp [encBody, encMember]
      rw [hshape, parseMembers, parseKey_enc _ hkq]
      have hnum : parseNum (natDump v ++ 125 :: rest) = some (v, 125 :: rest) :=
        parseNum_natDump (c := 125) v rest (by omega)
      simp [expectByte, COLON, RBRACE, hnum, COMMA]
    | cons p tl' =>
      have hshape : encBody ((k, v) :: p :: tl') ++ rest =
          QUOTE :: (k ++ QUOTE :: COLON :: (natDump v ++ COMMA :: (encBody (p :: tl') ++ rest))) := by
        simp [encBody, encMember]
      rw [hshape, parseMembers, parseKey_enc _ hkq]
      have hnum : parseNum (natDump v ++ 44 :: (encBody (p :: tl') ++ rest)) =
          some (v, 44 :: (encBody (p :: tl') ++ rest)) :=
        parseNum_natDump (c := 44) v _ (by omega)
      have hrec : parseMembers f (encBody (p :: tl') ++ rest) = some (p :: tl', rest) := by
        refine ih rest f (by simp) ?_ ?_
        · intro q hq
          exact hkeys q (by simp [hq])
        · simpa using Nat.lt_of_succ_le hfuel
      simp [expectByte, COLON, COMMA, hnum, hrec]

theorem parseObj_encBody (ps : List (List Nat × Nat)) (rest : List Nat) (fuel : Nat)
    (hne : ps ≠ []) (hkeys : ∀ p ∈ ps, ∀ b ∈ p.1, b ≠ QUOTE) (hfuel : ps.length ≤ fuel) :
    parseObj fuel (LBRACE :: (encBody ps ++ rest)) = some (ps, rest) := by
  obtain ⟨hd, tl, rfl⟩ : ∃ hd tl, ps = hd :: tl := by
    cases ps
    · exact absurd rfl hne
    · exact ⟨_, _, rfl⟩
  obtain ⟨k, v⟩ := hd
  obtain ⟨cs, hcs⟩ : ∃ cs, encBody ((k, v) :: tl) ++ rest = QUOTE :: cs := by
    cases tl <;> simp [encBody, encMember]
  rw [hcs]
  show parseMembers fuel (QUOTE :: cs) = some ((k, v) :: tl, rest)
  rw [← hcs]
  exact parseMembers_encBody _ rest fuel hne hkeys hfuel

theorem shardInfoPairs_keys (x : ShardInfo) :
    ∀ p ∈ shardInfoPairs x, ∀ b ∈ p.1, b ≠ QUOTE := by
  intro p hp b hb
  simp only [shardInfoPairs, List.mem_cons, List.not_mem_nil, or_false] at hp
  have hk : p.1 = key_available_capacity ∨ p.1 = key_created_time ∨
      p.1 = key_deleted_capacity ∨ p.1 = key_modified_time ∨ p.1 = key_pg_id ∨
      p.1 = key_shard_id ∨ p.1 = key_state ∨ p.1 = key_total_capacity := by
    rcases hp with rfl | rfl | rfl | rfl | rfl | rfl | rfl | rfl <;> simp
  rcases hk with h | h | h | h | h | h | h | h <;> (rw [h] at hb; revert b; decide)

theorem expectByte_self (b : Nat) (l : List Nat) : expectByte b (b :: l) = some l := by
  simp [expectByte]

theorem endOfInput_replicate (m : Nat) : endOfInput (List.replicate m 0) = true := by
  cases m <;> simp [endOfInput, List.replicate_succ]

theorem alookup_shardInfoPairs (x : ShardInfo) :
    alookup key_shard_id (shardInfoPairs x) = some x.id ∧
    alookup key_pg_id (shardInfoPairs x) = some x.placement_group ∧
    alookup key_state (shardInfoPairs x) = some x.state ∧
    alookup key_created_time (shardInfoPairs x) = some x.created_time ∧
    alookup key_modified_time (shardInfoPairs x) = some x.last_modified_time ∧
    alookup key_available_capacity (shardInfoPairs x) = some x.available_capacity_bytes ∧
    alookup key_total_capacity (shardInfoPairs x) = some x.total_capacity_bytes ∧
    alookup key_deleted_capacity (shardInfoPairs x) = some x.deleted_capacity_bytes := by
  refine ⟨?_, ?_, ?_, ?_, ?_, ?_, ?_, ?_⟩ <;>
    simp [alookup, shardInfoPairs, key_shard_id, key_pg_id, key_state, key_created_time,
      key_modified_time, key_available_capacity, key_total_capacity, key_deleted_capacity]

/-- Round trip of the codec through block-alignment zero padding: the
committer's `deserialize_shard_info`, run over the whole padded buffer,
recovers the serialized record exactly. -/
theorem deserialize_serialize_pad (x : ShardInfo) (m : Nat) :
    deserialize_shard_info (serialize_shard_info x ++ List.replicate m 0) = some x := by
  have hkeys := shardInfoPairs_keys x
  have hne : shardInfoPairs x ≠ [] := by simp [shardInfoPairs]
  have hshape : serialize_shard_info x ++ List.replicate m 0 =
      LBRACE :: (QUOTE :: (key_shard_info ++ QUOTE ::
        (COLON :: (LBRACE :: (encBody (shardInfoPairs x) ++ RBRACE :: List.replicate m 0))))) := by
    simp [serialize_shard_info]
  rw [hshape]
  have hfuel : (shardInfoPairs x).length ≤
      (LBRACE :: (QUOTE :: (key_shard_info ++ QUOTE ::
        (COLON :: (LBRACE :: (encBody (shardInfoPairs x) ++
          RBRACE :: List.replicate m 0)))))).length := by
    simp [shardInfoPairs, key_shard_info]
  have hq : ∀ b ∈ key_shard_info, b ≠ QUOTE := by decide
  have hpo := parseObj_encBody (shardInfoPairs x) (RBRACE :: List.replicate m 0) _
    hne hkeys hfuel
  obtain ⟨h1, h2, h3, h4, h5, h6, h7, h8⟩ := alookup_shardInfoPairs x
  rw [deserialize_shard_info]
  rw [expectByte_self]
  simp only [Option.bind_eq_bind, Option.some_bind]
  rw [parseKey_enc _ hq]
  simp only [Option.bind_eq_bind, Option.some_bind]
  rw [expectByte_self]
  simp only [Option.bind_eq_bind, Option.some_bind]
  rw [hpo]
  simp only [Option.bind_eq_bind, Option.some_bind]
  rw [expectByte_self]
  simp only [Option.bind_eq_bind, Option.some_bind]
  rw [if_pos (endOfInput_replicate m)]
  simp only [if_true, h1, h2, h3, h4, h5, h6, h7, h8, Option.some_bind]

/-! ## Shard-ID arithmetic -/

theorem max_shard_num_eq_pow (w : Nat) : max_shard_num_in_pg w = 2 ^ w := by
  rw [max_shard_num_in_pg, Nat.shiftLeft_eq, one_mul]

/-- The source's mask `id & (max_shard_num_in_pg() - 1)` agrees with the
modular definition used here. -/
theorem get_sequence_num_eq_land (w id : Nat) :
    get_sequence_num_from_shard_id w id = Nat.land id (max_shard_num_in_pg w - 1) := by
  rw [max_shard_num_eq_pow, get_sequence_num_from_shard_id]
  apply Nat.eq_of_testBit_eq
  intro i
  rw [Nat.testBit_mod_two_pow]
  rw [show Nat.land id (2 ^ w - 1) = id &&& 2 ^ w - 1 from rfl]
  rw [Nat.testBit_land, Nat.testBit_two_pow_sub_one, Bool.and_comm]

theorem get_seq_make (w pg s : Nat) (h : s < 2 ^ w) :
    get_sequence_num_from_shard_id w (make_new_shard_id w pg s) = s := by
  rw [get_sequence_num_from_shard_id, make_new_shard_id, Nat.mul_comm, Nat.mul_add_mod,
    Nat.mod_eq_of_lt h]

theorem generate_new_shard_id_spec (w : Nat) (σ : HOState) (pgid : Nat) (pg : HS_PG)
    (h : alookup pgid σ.pg_map = some pg) :
    generate_new_shard_id w σ pgid =
      if pg.shard_sequence_num + 1 < 2 ^ w then
        some (make_new_shard_id w pgid (pg.shard_sequence_num + 1),
          { σ with pg_map := (aupdate pgid
              (fun q => { q with shard_sequence_num := q.shard_sequence_num + 1 })
              σ.pg_map) })
      else none := by
  simp only [generate_new_shard_id, h, max_shard_num_eq_pow]

theorem allocSeqIds_spec (w pgid : Nat) :
    ∀ (n : Nat) (σ : HOState) (pg : HS_PG), alookup pgid σ.pg_map = some pg →
      pg.shard_sequence_num + n < 2 ^ w →
      ∃ ids, allocSeqIds w pgid n σ = some ids ∧
        ids.map (get_sequence_num_from_shard_id w) =
          List.range' (pg.shard_sequence_num + 1) n := by
  intro n
  induction n with
  | zero =>
    intro σ pg _ _
    exact ⟨[], rfl, by simp⟩
  | succ k ih =>
    intro σ pg h hlt
    have hgen := generate_new_shard_id_spec w σ pgid pg h
    rw [if_pos (by omega)] at hgen
    have h' : alookup pgid
        ({ σ with pg_map := (aupdate pgid
            (fun q => { q with shard_sequence_num := q.shard_sequence_num + 1 })
            σ.pg_map) } : HOState).pg_map =
        some { pg with shard_sequence_num := pg.shard_sequence_num + 1 } := by
      show alookup pgid (aupdate pgid
          (fun q => { q with shard_sequence_num := q.shard_sequence_num + 1 }) σ.pg_map) = _
      rw [alookup_aupdate_self, h, Option.map_some']
    obtain ⟨ids, hids, hmap⟩ := ih _ _ h'
      (show ({ pg with shard_sequence_num := pg.shard_sequence_num + 1 } :
          HS_PG).shard_sequence_num + k < 2 ^ w by
        show pg.shard_sequence_num + 1 + k < 2 ^ w
        omega)
    refine ⟨make_new_shard_id w pgid (pg.shard_sequence_num + 1) :: ids, ?_, ?_⟩
    · simp only [allocSeqIds, hgen]
      rw [hids]
      simp
    · simp only [List.map_cons]
      rw [get_seq_make w pgid _ (by omega)]
      have hmap' : ids.map (get_sequence_num_from_shard_id w) =
          List.range' (pg.shard_sequence_num + 1 + 1) k := hmap
      rw [hmap']
      simp [List.range']

/-- C7: each `generate_new_shard_id` call for an existing PG pre-increments
the PG's `shard_sequence_num` and returns an ID whose low-`w` extraction is
exactly that new sequence; successive allocations yield strictly increasing
sequences `1, 2, ...`; allocation aborts when the new sequence reaches
`max_shard_num_in_pg()`. -/
theorem shard_id_allocation :
    ∀ (w : Nat) (σ : HOState) (pgid : Nat) (pg : HS_PG),
      alookup pgid σ.pg_map = some pg →
      (pg.shard_sequence_num + 1 < max_shard_num_in_pg w →
        generate_new_shard_id w σ pgid =
          some (make_new_shard_id w pgid (pg.shard_sequence_num + 1),
            { σ with pg_map := (aupdate pgid
                (fun q => { q with shard_sequence_num := q.shard_sequence_num + 1 })
                σ.pg_map) }) ∧
        get_sequence_num_from_shard_id w
          (make_new_shard_id w pgid (pg.shard_sequence_num + 1)) =
          pg.shard_sequence_num + 1) ∧
      (pg.shard_sequence_num + 1 = max_shard_num_in_pg w →
        generate_new_shard_id w σ pgid = none) ∧
      (pg.shard_sequence_num = 0 → ∀ n, n < max_shard_num_in_pg w →
        ∃ ids, allocSeqIds w pgid n σ = some ids ∧
          ids.map (get_sequence_num_from_shard_id w) = List.range' 1 n) := by
  intro w σ pgid pg h
  rw [max_shard_num_eq_pow]
  refine ⟨?_, ?_, ?_⟩
  · intro hlt
    refine ⟨?_, get_seq_make w pgid _ hlt⟩
    rw [generate_new_shard_id_spec w σ pgid pg h, if_pos hlt]
  · intro heq
    rw [generate_new_shard_id_spec w σ pgid pg h, if_neg (by omega)]
  · intro h0 n hn
    have := allocSeqIds_spec w pgid n σ pg h (by omega)
    rwa [h0] at this

/-- Witness for C7 at `w = 4` on a PG with sequence 0: the first allocation
returns sequence 1 and three successive allocations return sequences 1, 2, 3. -/
theorem shard_id_allocation_witness :
    (0 + 1 < max_shard_num_in_pg 4) ∧
    get_sequence_num_from_shard_id 4 (make_new_shard_id 4 1 (0 + 1)) = 0 + 1 ∧
    (∃ ids, allocSeqIds 4 1 3
        (⟨[(1, ⟨0, true, [], none⟩)], [], []⟩ : HOState) = some ids ∧
      ids.map (get_sequence_num_from_shard_id 4) = List.range' 1 3) := by
  have h := shard_id_allocation 4 ⟨[(1, ⟨0, true, [], none⟩)], [], []⟩ 1
    ⟨0, true, [], none⟩ rfl
  exact ⟨by decide, (h.1 (by decide)).2, h.2.2 rfl 3 (by decide)⟩

/-- C2: the codec round-trips through block-size zero padding — deserializing
the padded serialization (at the padded length, as the committer does)
recovers every field of the original `ShardInfo`. -/
theorem codec_round_trip_padded (x : ShardInfo) (bs : Nat) :
    deserialize_shard_info (padPayload bs (serialize_shard_info x)) = some x := by
  rw [padPayload]
  exact deserialize_serialize_pad x _

/-! ## Committer step lemmas -/

theorem add_new_shard_to_map_eq {w : Nat} {σ : HOState} {shard : HS_Shard} {σ' : HOState}
    (h : add_new_shard_to_map w σ shard = some σ') :
    ∃ pg, alookup shard.info.placement_group σ.pg_map = some pg ∧
      alookup shard.info.id σ.shard_map = none ∧
      σ' = { σ with
        pg_map := (aupdate shard.info.placement_group
          (fun q => { q with
            shards := q.shards ++ [shard]
            shard_sequence_num :=
              (if q.shard_sequence_num < get_sequence_num_from_shard_id w shard.info.id
               then get_sequence_num_from_shard_id w shard.info.id
               else q.shard_sequence_num) }) σ.pg_map)
        shard_map := (σ.shard_map ++
          [(shard.info.id, (shard.info.placement_group, pg.shards.length))]) } := by
  cases hpg : alookup shard.info.placement_group σ.pg_map with
  | none => simp [add_new_shard_to_map, hpg] at h
  | some pg =>
    cases hsm : alookup shard.info.id σ.shard_map with
    | some v => simp [add_new_shard_to_map, hpg, hsm] at h
    | none =>
      simp only [add_new_shard_to_map, hpg, hsm] at h
      exact ⟨pg, rfl, rfl, (Option.some.inj h).symm⟩

theorem update_shard_in_map_eq {σ : HOState} {info : ShardInfo} {σ' : HOState}
    (h : update_shard_in_map σ info = some σ') :
    ∃ p i pg s, alookup info.id σ.shard_map = some (p, i) ∧
      alookup p σ.pg_map = some pg ∧ lget pg.shards i = some s ∧
      σ' = { σ with pg_map := (aupdate p
          (fun q => { q with shards := lset q.shards i (HS_Shard.update_info s info) })
          σ.pg_map) } := by
  cases hsm : alookup info.id σ.shard_map with
  | none => simp [update_shard_in_map, hsm] at h
  | some pr =>
    obtain ⟨p, i⟩ := pr
    cases hpg : alookup p σ.pg_map with
    | none => simp [update_shard_in_map, hsm, hpg] at h
    | some pg =>
      cases hget : lget pg.shards i with
      | none => simp [update_shard_in_map, hsm, hpg, hget] at h
      | some s =>
        simp only [update_shard_in_map, hsm, hpg, hget] at h
        exact ⟨p, i, pg, s, rfl, hpg, hget, (Option.some.inj h).symm⟩

theorem deref_after_append (σ : HOState) (pgid : Nat) (pg : HS_PG) (shard : HS_Shard)
    (seqn : Nat) (hpg : alookup pgid σ.pg_map = some pg) :
    ∀ id s, derefShard σ id = some s →
      derefShard { σ with
        pg_map := (aupdate pgid (fun q => { q with
            shards := q.shards ++ [shard]
            shard_sequence_num :=
              (if q.shard_sequence_num < seqn then seqn else q.shard_sequence_num) }) σ.pg_map)
        shard_map := (σ.shard_map ++ [(shard.info.id, (pgid, pg.shards.length))]) } id =
          some s := by
  intro id s hs
  cases hid : alookup id σ.shard_map with
  | none => simp [derefShard, hid] at hs
  | some pr =>
    cases hpr : alookup pr.1 σ.pg_map with
    | none => simp [derefShard, hid, hpr] at hs
    | some pgq =>
      simp only [derefShard, hid, hpr] at hs
      have hid' := alookup_append_left
        [(shard.info.id, (pgid, pg.shards.length))] hid
      simp only [derefShard, hid']
      by_cases hp : pr.1 = pgid
      · rw [hp] at hpr
        obtain rfl : pgq = pg := by rw [hpr] at hpg; exact Option.some.inj hpg
        simp only [hp, alookup_aupdate_self, hpg, Option.map_some']
        rw [lget_append_left _ (lget_some_lt hs)]
        exact hs
      · rw [alookup_aupdate_ne _ _ (fun hh => hp hh.symm), hpr]
        exact hs

theorem deref_after_append_new (σ : HOState) (pgid : Nat) (pg : HS_PG) (shard : HS_Shard)
    (seqn : Nat) (hpg : alookup pgid σ.pg_map = some pg)
    (hnew : alookup shard.info.id σ.shard_map = none) :
    derefShard { σ with
      pg_map := (aupdate pgid (fun q => { q with
          shards := q.shards ++ [shard]
          shard_sequence_num :=
            (if q.shard_sequence_num < seqn then seqn else q.shard_sequence_num) }) σ.pg_map)
      shard_map := (σ.shard_map ++ [(shard.info.id, (pgid, pg.shards.length))]) }
      shard.info.id = some shard := by
  have hid' : alookup shard.info.id
      (σ.shard_map ++ [(shard.info.id, (pgid, pg.shards.length))]) =
      some (pgid, pg.shards.length) := by
    rw [alookup_append_right _ hnew]
    simp [alookup]
  simp only [derefShard, hid', alookup_aupdate_self, hpg, Option.map_some']
  exact lget_append_length pg.shards shard

theorem deref_after_update (σ : HOState) (info : ShardInfo) (p i : Nat) (pg0 : HS_PG)
    (s0 : HS_Shard) (hsm : alookup info.id σ.shard_map = some (p, i))
    (hpg : alookup p σ.pg_map = some pg0) (hget : lget pg0.shards i = some s0)
    (hid0 : s0.info.id = info.id) :
    derefShard { σ with pg_map := (aupdate p
        (fun q => { q with shards := lset q.shards i (HS_Shard.update_info s0 info) })
        σ.pg_map) } info.id = some (HS_Shard.update_info s0 info) ∧
    ∀ id s, id ≠ info.id → derefShard σ id = some s → s.info.id = id →
      derefShard { σ with pg_map := (aupdate p
          (fun q => { q with shards := lset q.shards i (HS_Shard.update_info s0 info) })
          σ.pg_map) } id = some s := by
  constructor
  · simp only [derefShard, hsm, alookup_aupdate_self, hpg, Option.map_some']
    exact lget_lset_self _ (lget_some_lt hget)
  · intro id s hne hs hsid
    cases hid : alookup id σ.shard_map with
    | none => simp [derefShard, hid] at hs
    | some pr =>
      cases hpr : alookup pr.1 σ.pg_map with
      | none => simp [derefShard, hid, hpr] at hs
      | some pgq =>
        simp only [derefShard, hid, hpr] at hs
        simp only [derefShard, hid]
        by_cases hp : pr.1 = p
        · rw [hp] at hpr
          obtain rfl : pgq = pg0 := by rw [hpr] at hpg; exact Option.some.inj hpg
          simp only [hp, alookup_aupdate_self, hpg, Option.map_some']
          by_cases hi : pr.2 = i
          · exfalso
            rw [hi] at hs
            obtain rfl : s = s0 := by rw [hget] at hs; exact (Option.some.inj hs).symm
            exact hne (hsid ▸ hid0 ▸ rfl)
          · rw [lget_lset_ne _ hi]
            exact hs
        · rw [alookup_aupdate_ne _ _ (fun hh => hp hh.symm), hpr]
          exact hs

/-- One committed CREATE/SEAL application preserves directory well-formedness,
keeps every well-indexed shard dereferenceable with its chunk binding intact,
and only ever touches the state of the shard named by the entry (and only when
that shard is currently OPEN). -/
theorem apply_shard_message_preserves (w : Nat) (mt : ReplicationMessageType)
    (info : ShardInfo) (chunk : Nat) (σ σ' : HOState)
    (hWF : WFdir σ) (h : apply_shard_message w mt info chunk σ = some σ') :
    WFdir σ' ∧
    ∀ id s, derefShard σ id = some s → s.info.id = id →
      ∃ s', derefShard σ' id = some s' ∧ s'.info.id = id ∧
        s'.sb.chunk_id = s.sb.chunk_id ∧
        (s'.info.state = s.info.state ∨ s.info.state = OPEN) := by
  cases mt with
  | CREATE_SHARD_MSG =>
    cases hex : alookup info.id σ.shard_map with
    | some pr =>
      simp only [apply_shard_message, hex, Option.isSome_some, if_true] at h
      obtain rfl : σ = σ' := Option.some.inj h
      exact ⟨hWF, fun id s hs hid => ⟨s, hs, hid, rfl, Or.inl rfl⟩⟩
    | none =>
      simp only [apply_shard_message, hex, Option.isSome_none, Bool.false_eq_true,
        if_false] at h
      cases hadd : add_new_shard_to_map w σ (HS_Shard.make info chunk) with
      | none => simp [hadd] at h
      | some σ1 =>
        simp only [hadd] at h
        obtain rfl := Option.some.inj h
        obtain ⟨pg, hpg, hnew, rfl⟩ := add_new_shard_to_map_eq hadd
        constructor
        · intro pr hpr
          have hpr' : pr ∈ σ.shard_map ++
              [((HS_Shard.make info chunk).info.id,
                ((HS_Shard.make info chunk).info.placement_group, pg.shards.length))] := hpr
          rcases List.mem_append.1 hpr' with hin | hin
          · have hw := hWF pr hin
            cases hd0 : derefShard σ pr.1 with
            | none => rw [hd0] at hw; exact absurd hw (by simp)
            | some s =>
              rw [hd0, Option.map_some'] at hw
              have h2 : derefShard { { σ with
                  pg_map := (aupdate (HS_Shard.make info chunk).info.placement_group
                    (fun q => { q with
                      shards := q.shards ++ [HS_Shard.make info chunk]
                      shard_sequence_num :=
                        (if q.shard_sequence_num <
                            get_sequence_num_from_shard_id w (HS_Shard.make info chunk).info.id
                         then get_sequence_num_from_shard_id w (HS_Shard.make info chunk).info.id
                         else q.shard_sequence_num) }) σ.pg_map)
                  shard_map := (σ.shard_map ++
                    [((HS_Shard.make info chunk).info.id,
                      ((HS_Shard.make info chunk).info.placement_group,
                        pg.shards.length))]) } with
                  sel_calls := σ.sel_calls ++ [SelectorCall.select chunk] } pr.1 = some s :=
                deref_after_append σ _ pg (HS_Shard.make info chunk) _ hpg pr.1 s hd0
              rw [h2, Option.map_some']
              exact hw
          · have hpr2 : pr = ((HS_Shard.make info chunk).info.id,
                ((HS_Shard.make info chunk).info.placement_group, pg.shards.length)) := by
              simpa using hin
            subst hpr2
            show (derefShard _ (HS_Shard.make info chunk).info.id).map
                (fun s => s.info.id) = some (HS_Shard.make info chunk).info.id
            have h2 : derefShard { { σ with
                pg_map := (aupdate (HS_Shard.make info chunk).info.placement_group
                  (fun q => { q with
                    shards := q.shards ++ [HS_Shard.make info chunk]
                    shard_sequence_num :=
                      (if q.shard_sequence_num <
                          get_sequence_num_from_shard_id w (HS_Shard.make info chunk).info.id
                       then get_sequence_num_from_shard_id w (HS_Shard.make info chunk).info.id
                       else q.shard_sequence_num) }) σ.pg_map)
                shard_map := (σ.shard_map ++
                  [((HS_Shard.make info chunk).info.id,
                    ((HS_Shard.make info chunk).info.placement_group,
                      pg.shards.length))]) } with
                sel_calls := σ.sel_calls ++ [SelectorCall.select chunk] }
                (HS_Shard.make info chunk).info.id = some (HS_Shard.make info chunk) :=
              deref_after_append_new σ _ pg (HS_Shard.make info chunk) _ hpg hnew
            rw [h2, Option.map_some']
        · intro id s hs hsid
          by_cases hidq : id = info.id
          · rw [hidq] at hs
            have hnone : derefShard σ info.id = none := by
              simp [derefShard, hex]
            rw [hnone] at hs
            exact absurd hs (by simp)
          · exact ⟨s, deref_after_append σ _ pg (HS_Shard.make info chunk) _ hpg id s hs,
              hsid, rfl, Or.inl rfl⟩
  | SEAL_SHARD_MSG =>
    cases hd : derefShard σ info.id with
    | none => simp [apply_shard_message, hd] at h
    | some s0 =>
      simp only [apply_shard_message, hd, Option.map_some'] at h
      by_cases hst : s0.info.state = OPEN
      · rw [if_pos hst] at h
        have hchunk : get_shard_chunk σ info.id = some s0.sb.chunk_id := by
          rw [get_shard_chunk, hd, Option.map_some']
        rw [hchunk] at h
        obtain ⟨p, i, pg0, su, hsm, hpg, hget, rfl⟩ := update_shard_in_map_eq h
        have hsm0 : alookup info.id σ.shard_map = some (p, i) := hsm
        have hsu : su = s0 := by
          have hdu : derefShard σ info.id = some su := by
            simp only [derefShard, hsm0, hpg]
            exact hget
          rw [hd] at hdu
          exact (Option.some.inj hdu).symm
        subst hsu
        have hid0 : su.info.id = info.id := by
          have hw := hWF _ (alookup_mem hsm0)
          rw [hd, Option.map_some'] at hw
          exact Option.some.inj hw
        have hdu := deref_after_update
          { σ with sel_calls := σ.sel_calls ++ [SelectorCall.release su.sb.chunk_id] }
          info p i pg0 su hsm hpg hget hid0
        constructor
        · intro pr hpr
          have hpr' : pr ∈ σ.shard_map := hpr
          by_cases hne : pr.1 = info.id
          · have h2 := hdu.1
            rw [hne]
            show (derefShard _ info.id).map (fun s => s.info.id) = some info.id
            rw [h2, Option.map_some']
            rfl
          · have hw := hWF pr hpr'
            cases hd0 : derefShard σ pr.1 with
            | none => rw [hd0] at hw; exact absurd hw (by simp)
            | some s =>
              rw [hd0, Option.map_some'] at hw
              have hsid := Option.some.inj hw
              have h2 := hdu.2 pr.1 s hne hd0 hsid
              rw [h2, Option.map_some']
              exact hw
        · intro id s hs hsid
          by_cases hidq : id = info.id
          · subst hidq
            obtain rfl : s = su := by
              rw [hd] at hs
              exact (Option.some.inj hs).symm
            exact ⟨HS_Shard.update_info s info, hdu.1, hid0 ▸ rfl, rfl, Or.inr hst⟩
          · exact ⟨s, hdu.2 id s hidq hs hsid, hsid, rfl, Or.inl rfl⟩
      · rw [if_neg hst] at h
        obtain rfl : σ = σ' := Option.some.inj h
        exact ⟨hWF, fun id s hs hid => ⟨s, hs, hid, rfl, Or.inl rfl⟩⟩

/-- Applying a committed-log prefix preserves directory well-formedness and
per-shard chunk bindings, and never moves a shard out of a non-OPEN state. -/
theorem applyEntries_preserves (w : Nat) :
    ∀ (es : List LogEntry) (σ σ' : HOState), WFdir σ →
      applyEntries w es σ = some σ' →
      WFdir σ' ∧
      ∀ id s, derefShard σ id = some s → s.info.id = id →
        ∃ s', derefShard σ' id = some s' ∧ s'.info.id = id ∧
          s'.sb.chunk_id = s.sb.chunk_id ∧
          (s'.info.state = s.info.state ∨ s.info.state = OPEN) := by
  intro es
  induction es with
  | nil =>
    intro σ σ' hWF h
    obtain rfl := Option.some.inj h
    exact ⟨hWF, fun id s hs hid => ⟨s, hs, hid, rfl, Or.inl rfl⟩⟩
  | cons e es ih =>
    intro σ σ' hWF h
    simp only [applyEntries] at h
    cases hstep : apply_shard_message w e.msg_type e.info e.chunk σ with
    | none => simp [hstep] at h
    | some σ1 =>
      simp only [hstep] at h
      obtain ⟨hWF1, hstab1⟩ := apply_shard_message_preserves w _ _ _ _ _ hWF hstep
      obtain ⟨hWF2, hstab2⟩ := ih σ1 σ' hWF1 h
      refine ⟨hWF2, ?_⟩
      intro id s hs hid
      obtain ⟨s1, hs1, hid1, hc1, hst1⟩ := hstab1 id s hs hid
      obtain ⟨s2, hs2, hid2, hc2, hst2⟩ := hstab2 id s1 hs1 hid1
      refine ⟨s2, hs2, hid2, hc2.trans hc1, ?_⟩
      rcases hst1 with h1 | h1
      · rcases hst2 with h2 | h2
        · exact Or.inl (h2.trans h1)
        · exact Or.inr (h1.symm.trans h2)
      · exact Or.inr h1

theorem deref_after_update_self (σ : HOState) (info : ShardInfo) (p i : Nat) (pg0 : HS_PG)
    (s0 : HS_Shard) (hsm : alookup info.id σ.shard_map = some (p, i))
    (hpg : alookup p σ.pg_map = some pg0) (hget : lget pg0.shards i = some s0) :
    derefShard { σ with pg_map := (aupdate p
        (fun q => { q with shards := lset q.shards i (HS_Shard.update_info s0 info) })
        σ.pg_map) } info.id = some (HS_Shard.update_info s0 info) := by
  simp only [derefShard, hsm, alookup_aupdate_self, hpg, Option.map_some']
  exact lget_lset_self _ (lget_some_lt hget)

theorem apply_create_skip {w : Nat} {info : ShardInfo} {chunk : Nat} {σ : HOState}
    (h : (alookup info.id σ.shard_map).isSome = true) :
    apply_shard_message w ReplicationMessageType.CREATE_SHARD_MSG info chunk σ = some σ := by
  simp [apply_shard_message, h]

theorem apply_seal_skip {w : Nat} {info : ShardInfo} {chunk : Nat} {σ : HOState} {s : HS_Shard}
    (hd : derefShard σ info.id = some s) (hst : ¬s.info.state = OPEN) :
    apply_shard_message w ReplicationMessageType.SEAL_SHARD_MSG info chunk σ = some σ := by
  simp only [apply_shard_message, hd, Option.map_some']
  rw [if_neg hst]

theorem apply_create_new_deref {w : Nat} {info : ShardInfo} {chunk : Nat} {σ σ1 : HOState}
    (hnew : alookup info.id σ.shard_map = none)
    (h : apply_shard_message w ReplicationMessageType.CREATE_SHARD_MSG info chunk σ = some σ1) :
    derefShard σ1 info.id = some (HS_Shard.make info chunk) := by
  simp only [apply_shard_message, hnew, Option.isSome_none, Bool.false_eq_true,
    if_false] at h
  cases hadd : add_new_shard_to_map w σ (HS_Shard.make info chunk) with
  | none => simp [hadd] at h
  | some σa =>
    simp only [hadd] at h
    obtain rfl := Option.some.inj h
    obtain ⟨pg, hpg, hnew2, rfl⟩ := add_new_shard_to_map_eq hadd
    exact deref_after_append_new σ _ pg (HS_Shard.make info chunk) _ hpg hnew2

theorem apply_create_idem {w : Nat} {info : ShardInfo} {chunk : Nat} {σ σ1 : HOState}
    (h : apply_shard_message w ReplicationMessageType.CREATE_SHARD_MSG info chunk σ = some σ1) :
    apply_shard_message w ReplicationMessageType.CREATE_SHARD_MSG info chunk σ1 = some σ1 := by
  cases hex : alookup info.id σ.shard_map with
  | some pr =>
    simp only [apply_shard_message, hex, Option.isSome_some, if_true] at h
    obtain rfl := Option.some.inj h
    exact apply_create_skip (by simp [hex])
  | none =>
    have hd1 := apply_create_new_deref hex h
    refine apply_create_skip ?_
    cases hsm : alookup info.id σ1.shard_map with
    | none => simp [derefShard, hsm] at hd1
    | some pr => rfl

theorem apply_seal_idem {w : Nat} {info : ShardInfo} {chunk : Nat} {σ σ1 : HOState}
    (hst : info.state = SEALED)
    (h : apply_shard_message w ReplicationMessageType.SEAL_SHARD_MSG info chunk σ = some σ1) :
    apply_shard_message w ReplicationMessageType.SEAL_SHARD_MSG info chunk σ1 = some σ1 := by
  cases hd : derefShard σ info.id with
  | none => simp [apply_shard_message, hd] at h
  | some s0 =>
    simp only [apply_shard_message, hd, Option.map_some'] at h
    by_cases hOpen : s0.info.state = OPEN
    · rw [if_pos hOpen] at h
      have hchunk : get_shard_chunk σ info.id = some s0.sb.chunk_id := by
        rw [get_shard_chunk, hd, Option.map_some']
      rw [hchunk] at h
      obtain ⟨p, i, pg0, su, hsm, hpg, hget, rfl⟩ := update_shard_in_map_eq h
      have hd1 := deref_after_update_self
        { σ with sel_calls := σ.sel_calls ++ [SelectorCall.release s0.sb.chunk_id] }
        info p i pg0 su hsm hpg hget
      refine apply_seal_skip hd1 ?_
      show ¬info.state = OPEN
      rw [hst]
      decide
    · rw [if_neg hOpen] at h
      obtain rfl := Option.some.inj h
      exact apply_seal_skip hd hOpen

/-- C1: commit application is idempotent — for an entry whose CRCs verify
(and, for SEAL, whose payload carries `state = SEALED`, as every proposer-built
seal payload does), running `do_shard_message_commit` a second time from the
post-state returns the same state and the same future resolution; a CREATE of
an already-present shard ID and a SEAL of an already-SEALED shard are skipped
outright. -/
theorem commit_idempotent :
    (∀ (w : Nat) (σ : HOState) (lsn : Nat) (header : ReplicationMessageHeader)
        (chunk : Nat) (value : List Nat) (is_proposer : Bool)
        (σ1 : HOState) (r1 : Option (Except ShardError ShardInfo)),
      corrupted header = false →
      crc32_ieee init_crc32 value = header.payload_crc →
      (∀ info, deserialize_shard_info value = some info →
        header.msg_type = ReplicationMessageType.SEAL_SHARD_MSG → info.state = SEALED) →
      do_shard_message_commit w σ lsn header chunk value is_proposer = some (σ1, r1) →
      do_shard_message_commit w σ1 lsn header chunk value is_proposer = some (σ1, r1)) ∧
    (∀ (w : Nat) (info : ShardInfo) (chunk : Nat) (σ : HOState),
      (alookup info.id σ.shard_map).isSome = true →
      apply_shard_message w ReplicationMessageType.CREATE_SHARD_MSG info chunk σ = some σ) ∧
    (∀ (w : Nat) (info : ShardInfo) (chunk : Nat) (σ : HOState) (s : HS_Shard),
      derefShard σ info.id = some s → s.info.state = SEALED →
      apply_shard_message w ReplicationMessageType.SEAL_SHARD_MSG info chunk σ = some σ) := by
  refine ⟨?_, ?_, ?_⟩
  · intro w σ lsn header chunk value prop σ1 r1 hco hcrc hwf h
    rw [do_shard_message_commit] at h ⊢
    rw [if_neg (by rw [hco]; exact Bool.false_ne_true)] at h ⊢
    rw [if_neg (fun hne => hne hcrc)] at h ⊢
    cases hdes : deserialize_shard_info value with
    | none => simp [hdes] at h
    | some info =>
      simp only [hdes] at h ⊢
      cases hap : apply_shard_message w header.msg_type info chunk σ with
      | none => simp [hap] at h
      | some σa =>
        simp only [hap] at h
        have hp := Option.some.inj h
        rw [Prod.mk.injEq] at hp
        obtain ⟨rfl, rfl⟩ := hp
        have hidem : apply_shard_message w header.msg_type info chunk σa = some σa := by
          cases hmt : header.msg_type with
          | CREATE_SHARD_MSG =>
            rw [hmt] at hap
            exact apply_create_idem hap
          | SEAL_SHARD_MSG =>
            rw [hmt] at hap
            exact apply_seal_idem (hwf info hdes hmt) hap
        rw [hidem]
  · intro w info chunk σ h
    exact apply_create_skip h
  · intro w info chunk σ s hd hst
    refine apply_seal_skip hd ?_
    rw [hst]
    decide

/-- C6: state monotonicity — once a shard in a well-formed directory is
SEALED, no sequence of committed CREATE/SEAL applications ever observes it in
any other state; SEALED is terminal. -/
theorem sealed_state_terminal (w : Nat) (es : List LogEntry) (σ σ' : HOState) (id : Nat)
    (hWF : WFdir σ)
    (hSealed : (derefShard σ id).map (fun s => s.info.state) = some SEALED)
    (h : applyEntries w es σ = some σ') :
    (derefShard σ' id).map (fun s => s.info.state) = some SEALED := by
  cases hd : derefShard σ id with
  | none => rw [hd] at hSealed; exact absurd hSealed (by simp)
  | some s =>
    rw [hd, Option.map_some'] at hSealed
    have hstate := Option.some.inj hSealed
    have hid : s.info.id = id := by
      cases hsm : alookup id σ.shard_map with
      | none => simp [derefShard, hsm] at hd
      | some pr =>
        have hw : (derefShard σ id).map (fun s => s.info.id) = some id :=
          hWF _ (alookup_mem hsm)
        rw [hd, Option.map_some'] at hw
        exact Option.some.inj hw
    obtain ⟨_, hstab⟩ := applyEntries_preserves w es σ σ' hWF h
    obtain ⟨s', hs', _, _, hst'⟩ := hstab id s hd hid
    rw [hs', Option.map_some']
    rcases hst' with h2 | h2
    · rw [h2, hstate]
    · exfalso
      rw [hstate] at h2
      exact absurd h2 (by decide)

/-- Witness for C6: a replica holding one SEALED shard (id 17, chunk 9); a
further SEAL commit for it is applied and the shard is still SEALED. -/
theorem sealed_state_terminal_witness :
    (derefShard (⟨[(1, ⟨1, true, [⟨⟨17, 1, 1, 3, 5, 100, 50, 0⟩,
        ⟨17, 1, 1, 3, 5, 50, 100, 0, 9⟩⟩], none⟩)], [(17, (1, 0))], []⟩ : HOState) 17).map
      (fun s => s.info.state) = some SEALED ∧
    (derefShard (⟨[(1, ⟨1, true, [⟨⟨17, 1, 1, 3, 5, 100, 50, 0⟩,
        ⟨17, 1, 1, 3, 5, 50, 100, 0, 9⟩⟩], none⟩)], [(17, (1, 0))], []⟩ : HOState) 17).map
      (fun s => s.info.state) = some SEALED := by
  constructor
  · decide
  · exact sealed_state_terminal 4
      [⟨ReplicationMessageType.SEAL_SHARD_MSG, ⟨17, 1, 1, 3, 7, 100, 50, 0⟩, 0⟩]
      ⟨[(1, ⟨1, true, [⟨⟨17, 1, 1, 3, 5, 100, 50, 0⟩,
        ⟨17, 1, 1, 3, 5, 50, 100, 0, 9⟩⟩], none⟩)], [(17, (1, 0))], []⟩
      ⟨[(1, ⟨1, true, [⟨⟨17, 1, 1, 3, 5, 100, 50, 0⟩,
        ⟨17, 1, 1, 3, 5, 50, 100, 0, 9⟩⟩], none⟩)], [(17, (1, 0))], []⟩
      17 (by decide) (by decide) (by decide)

/-- C8: chunk binding — a CREATE commit that inserts shard `info.id` with
block-ID chunk `chunk` makes `get_shard_chunk` return exactly that chunk, and
no later committed operation changes it; for an ID absent from the shard map,
`get_shard_chunk` returns `none`. -/
theorem chunk_binding :
    (∀ (w : Nat) (σ : HOState) (info : ShardInfo) (chunk : Nat) (σ1 : HOState)
        (es : List LogEntry) (σ2 : HOState),
      WFdir σ →
      alookup info.id σ.shard_map = none →
      apply_shard_message w ReplicationMessageType.CREATE_SHARD_MSG info chunk σ = some σ1 →
      applyEntries w es σ1 = some σ2 →
      get_shard_chunk σ2 info.id = some chunk) ∧
    (∀ (σ : HOState) (id : Nat), alookup id σ.shard_map = none →
      get_shard_chunk σ id = none) := by
  constructor
  · intro w σ info chunk σ1 es σ2 hWF hnew h1 h2
    have hd1 := apply_create_new_deref hnew h1
    have hWF1 := (apply_shard_message_preserves w _ _ _ _ _ hWF h1).1
    obtain ⟨s2, hs2, _, hc2, _⟩ := (applyEntries_preserves w es σ1 σ2 hWF1 h2).2
      info.id (HS_Shard.make info chunk) hd1 rfl
    rw [get_shard_chunk, hs2, Option.map_some', hc2]
    rfl
  · intro σ id h
    simp [get_shard_chunk, derefShard, h]

/-- Witness for C8: from a fresh PG 1, a CREATE commit of shard 17 carrying
chunk 9 binds `get_shard_chunk 17` to 9, and an unknown ID yields `none`. -/
theorem chunk_binding_witness :
    get_shard_chunk (⟨[(1, ⟨1, true, [⟨⟨17, 1, 0, 3, 5, 100, 100, 0⟩,
        ⟨17, 1, 0, 3, 5, 100, 100, 0, 9⟩⟩], none⟩)], [(17, (1, 0))],
      [SelectorCall.select 9]⟩ : HOState) 17 = some 9 ∧
    get_shard_chunk (⟨[(1, ⟨0, true, [], none⟩)], [], []⟩ : HOState) 17 = none := by
  constructor
  · exact chunk_binding.1 4 ⟨[(1, ⟨0, true, [], none⟩)], [], []⟩
      ⟨17, 1, 0, 3, 5, 100, 100, 0⟩ 9
      ⟨[(1, ⟨1, true, [⟨⟨17, 1, 0, 3, 5, 100, 100, 0⟩,
        ⟨17, 1, 0, 3, 5, 100, 100, 0, 9⟩⟩], none⟩)], [(17, (1, 0))],
        [SelectorCall.select 9]⟩ []
      ⟨[(1, ⟨1, true, [⟨⟨17, 1, 0, 3, 5, 100, 100, 0⟩,
        ⟨17, 1, 0, 3, 5, 100, 100, 0, 9⟩⟩], none⟩)], [(17, (1, 0))],
        [SelectorCall.select 9]⟩
      (by decide) (by decide) (by decide) (by decide)
  · exact chunk_binding.2 ⟨[(1, ⟨0, true, [], none⟩)], [], []⟩ 17 (by decide)

/-! ## Sequence catch-up lemmas -/

theorem apply_entry_seq (w pgid : Nat) (e : LogEntry) (σ σ' : HOState) (pg : HS_PG)
    (hpgid : e.info.placement_group = pgid)
    (hpg : alookup pgid σ.pg_map = some pg)
    (hinv : ∀ pr ∈ σ.shard_map,
      get_sequence_num_from_shard_id w pr.1 ≤ pg.shard_sequence_num)
    (h : apply_shard_message w e.msg_type e.info e.chunk σ = some σ') :
    ∃ pg', alookup pgid σ'.pg_map = some pg' ∧
      pg'.shard_sequence_num =
        (if e.msg_type = ReplicationMessageType.CREATE_SHARD_MSG then
          max pg.shard_sequence_num (get_sequence_num_from_shard_id w e.info.id)
        else pg.shard_sequence_num) ∧
      (∀ pr ∈ σ'.shard_map,
        get_sequence_num_from_shard_id w pr.1 ≤ pg'.shard_sequence_num) := by
  cases hmt : e.msg_type with
  | CREATE_SHARD_MSG =>
    rw [hmt] at h
    simp only [if_pos rfl]
    cases hex : alookup e.info.id σ.shard_map with
    | some pr =>
      simp only [apply_shard_message, hex, Option.isSome_some, if_true] at h
      obtain rfl := Option.some.inj h
      have hle : get_sequence_num_from_shard_id w e.info.id ≤ pg.shard_sequence_num :=
        hinv (e.info.id, pr) (alookup_mem hex)
      exact ⟨pg, hpg, (by omega : pg.shard_sequence_num =
        max pg.shard_sequence_num (get_sequence_num_from_shard_id w e.info.id)), hinv⟩
    | none =>
      simp only [apply_shard_message, hex, Option.isSome_none, Bool.false_eq_true,
        if_false] at h
      cases hadd : add_new_shard_to_map w σ (HS_Shard.make e.info e.chunk) with
      | none => simp [hadd] at h
      | some σa =>
        simp only [hadd] at h
        obtain rfl := Option.some.inj h
        obtain ⟨pgq, hpgq, hnew, rfl⟩ := add_new_shard_to_map_eq hadd
        have hpg2 : alookup pgid σ.pg_map =
            some pgq := by
          rw [← hpgid]
          exact hpgq
        obtain rfl : pg = pgq := by rw [hpg] at hpg2; exact Option.some.inj hpg2
        refine ⟨{ pg with
            shards := pg.shards ++ [HS_Shard.make e.info e.chunk]
            shard_sequence_num :=
              (if pg.shard_sequence_num < get_sequence_num_from_shard_id w e.info.id
               then get_sequence_num_from_shard_id w e.info.id
               else pg.shard_sequence_num) }, ?_, ?_, ?_⟩
        · show alookup pgid (aupdate (HS_Shard.make e.info e.chunk).info.placement_group
            (fun q => { q with
              shards := q.shards ++ [HS_Shard.make e.info e.chunk]
              shard_sequence_num :=
                (if q.shard_sequence_num <
                    get_sequence_num_from_shard_id w (HS_Shard.make e.info e.chunk).info.id
                 then get_sequence_num_from_shard_id w (HS_Shard.make e.info e.chunk).info.id
                 else q.shard_sequence_num) }) σ.pg_map) = _
          have hkey : (HS_Shard.make e.info e.chunk).info.placement_group = pgid := hpgid
          rw [hkey, alookup_aupdate_self, hpg, Option.map_some']
          exact rfl
        · show (if pg.shard_sequence_num < get_sequence_num_from_shard_id w e.info.id
            then get_sequence_num_from_shard_id w e.info.id
            else pg.shard_sequence_num) =
            max pg.shard_sequence_num (get_sequence_num_from_shard_id w e.info.id)
          split <;> omega
        · intro pr hpr
          have hpr' : pr ∈ σ.shard_map ++
              [((HS_Shard.make e.info e.chunk).info.id,
                ((HS_Shard.make e.info e.chunk).info.placement_group,
                  pg.shards.length))] := hpr
          show get_sequence_num_from_shard_id w pr.1 ≤
            (if pg.shard_sequence_num < get_sequence_num_from_shard_id w e.info.id
             then get_sequence_num_from_shard_id w e.info.id
             else pg.shard_sequence_num)
          rcases List.mem_append.1 hpr' with hin | hin
          · have := hinv pr hin
            split <;> omega
          · have hpr2 : pr.1 = e.info.id := by
              rcases List.mem_singleton.1 hin with rfl
              rfl
            rw [hpr2]
            split <;> omega
  | SEAL_SHARD_MSG =>
    rw [hmt] at h
    simp only [reduceCtorEq, if_false]
    cases hd : derefShard σ e.info.id with
    | none => simp [apply_shard_message, hd] at h
    | some s0 =>
      simp only [apply_shard_message, hd, Option.map_some'] at h
      by_cases hOpen : s0.info.state = OPEN
      · rw [if_pos hOpen] at h
        have hchunk : get_shard_chunk σ e.info.id = some s0.sb.chunk_id := by
          rw [get_shard_chunk, hd, Option.map_some']
        simp only [hchunk] at h
        obtain ⟨p, i, pg0, su, hsm, hpg0, hget, rfl⟩ := update_shard_in_map_eq h
        by_cases hp : p = pgid
        · subst hp
          have hpg0' : alookup p σ.pg_map = some pg0 := hpg0
          obtain rfl : pg = pg0 := by rw [hpg] at hpg0'; exact Option.some.inj hpg0'
          refine ⟨{ pg with
              shards := lset pg.shards i (HS_Shard.update_info su e.info) }, ?_, rfl, ?_⟩
          · show alookup p (aupdate p
              (fun q => { q with
                shards := lset q.shards i (HS_Shard.update_info su e.info) }) σ.pg_map) = _
            rw [alookup_aupdate_self, hpg0', Option.map_some']
          · intro pr hpr
            exact hinv pr hpr
        · refine ⟨pg, ?_, rfl, hinv⟩
          show alookup pgid (aupdate p
            (fun q => { q with
              shards := lset q.shards i (HS_Shard.update_info su e.info) }) σ.pg_map) = _
          rw [alookup_aupdate_ne _ _ hp]
          exact hpg
      · rw [if_neg hOpen] at h
        obtain rfl := Option.some.inj h
        exact ⟨pg, hpg, rfl, hinv⟩

theorem applyEntries_seq (w pgid : Nat) :
    ∀ (es : List LogEntry) (σ σ' : HOState) (pg : HS_PG),
      alookup pgid σ.pg_map = some pg →
      (∀ pr ∈ σ.shard_map,
        get_sequence_num_from_shard_id w pr.1 ≤ pg.shard_sequence_num) →
      (∀ e ∈ es, e.info.placement_group = pgid) →
      applyEntries w es σ = some σ' →
      ∃ pg', alookup pgid σ'.pg_map = some pg' ∧
        pg'.shard_sequence_num = maxCreateSeqFrom w pg.shard_sequence_num es ∧
        (∀ pr ∈ σ'.shard_map,
          get_sequence_num_from_shard_id w pr.1 ≤ pg'.shard_sequence_num) := by
  intro es
  induction es with
  | nil =>
    intro σ σ' pg hpg hinv _ h
    obtain rfl := Option.some.inj h
    exact ⟨pg, hpg, rfl, hinv⟩
  | cons e es ih =>
    intro σ σ' pg hpg hinv hall h
    simp only [applyEntries] at h
    cases hstep : apply_shard_message w e.msg_type e.info e.chunk σ with
    | none => simp [hstep] at h
    | some σ1 =>
      simp only [hstep] at h
      obtain ⟨pg1, hpg1, hseq1, hinv1⟩ := apply_entry_seq w pgid e σ σ1 pg
        (hall e (by simp)) hpg hinv hstep
      obtain ⟨pg', hpg', hseq', hinv'⟩ := ih σ1 σ' pg1 hpg1 hinv1
        (fun e2 he2 => hall e2 (by simp [he2])) h
      refine ⟨pg', hpg', ?_, hinv'⟩
      rw [hseq', hseq1]
      simp only [maxCreateSeqFrom, List.foldl_cons]

/-- C3: sequence catch-up — applying a committed-log prefix for a PG to a
fresh replica leaves that PG's `shard_sequence_num` equal to the maximum
low-`w` sequence of any CREATE in the prefix (so at least the sequence of
every CREATE in it); and any single CREATE commit — one whose shard is
already present included — leaves the PG's sequence at least the sequence of
the committed shard ID, provided every indexed shard's PG has already caught
up to it (as every insertion through `add_new_shard_to_map` guarantees). -/
theorem sequence_catch_up :
    (∀ (w pgid : Nat) (entries : List LogEntry) (σ0 : HOState) (pg0 : HS_PG) (σ : HOState),
      alookup pgid σ0.pg_map = some pg0 →
      pg0.shard_sequence_num = 0 →
      σ0.shard_map = [] →
      (∀ e ∈ entries, e.info.placement_group = pgid) →
      applyEntries w entries σ0 = some σ →
      ∃ pg, alookup pgid σ.pg_map = some pg ∧
        pg.shard_sequence_num = maxCreateSeq w entries ∧
        ∀ e ∈ entries, e.msg_type = ReplicationMessageType.CREATE_SHARD_MSG →
          get_sequence_num_from_shard_id w e.info.id ≤ pg.shard_sequence_num) ∧
    (∀ (w : Nat) (info : ShardInfo) (chunk : Nat) (σ σ' : HOState) (pg : HS_PG),
      alookup info.placement_group σ.pg_map = some pg →
      (∀ pr ∈ σ.shard_map, pr.1 = info.id → pr.2.1 = info.placement_group) →
      (∀ pr ∈ σ.shard_map, ∃ q, alookup pr.2.1 σ.pg_map = some q ∧
        get_sequence_num_from_shard_id w pr.1 ≤ q.shard_sequence_num) →
      apply_shard_message w ReplicationMessageType.CREATE_SHARD_MSG info chunk σ = some σ' →
      ∃ pg', alookup info.placement_group σ'.pg_map = some pg' ∧
        get_sequence_num_from_shard_id w info.id ≤ pg'.shard_sequence_num) := by
  constructor
  · intro w pgid entries σ0 pg0 σ hpg h0 hsm hall h
    obtain ⟨pg, hpg', hseq, hinv⟩ := applyEntries_seq w pgid entries σ0 σ pg0 hpg
      (by rw [hsm]; simp) hall h
    rw [h0] at hseq
    refine ⟨pg, hpg', hseq, ?_⟩
    intro e he hmt
    rw [hseq]
    clear hseq hinv h hall hpg hpg'
    have : ∀ (b : Nat) (l : List LogEntry), e ∈ l →
        e.msg_type = ReplicationMessageType.CREATE_SHARD_MSG →
        get_sequence_num_from_shard_id w e.info.id ≤ maxCreateSeqFrom w b l := by
      intro b l
      induction l generalizing b with
      | nil => intro hmem; simp at hmem
      | cons e2 l2 ih2 =>
        intro hmem hmt2
        rcases List.mem_cons.1 hmem with rfl | hmem2
        · simp only [maxCreateSeqFrom, List.foldl_cons, hmt2, if_pos rfl]
          have hmono : ∀ (b2 : Nat) (l3 : List LogEntry), b2 ≤ maxCreateSeqFrom w b2 l3 := by
            intro b2 l3
            induction l3 generalizing b2 with
            | nil => simp [maxCreateSeqFrom]
            | cons e3 l4 ih3 =>
              simp only [maxCreateSeqFrom, List.foldl_cons]
              split
              · exact le_trans (le_max_left _ _) (ih3 _)
              · exact ih3 b2
          exact le_trans (le_max_right _ _) (hmono _ _)
        · simp only [maxCreateSeqFrom, List.foldl_cons]
          exact ih2 _ hmem2 hmt2
    exact this 0 entries he hmt
  · intro w info chunk σ σ' pg hpg hcons hglob h
    cases hex : alookup info.id σ.shard_map with
    | some pr =>
      simp only [apply_shard_message, hex, Option.isSome_some, if_true] at h
      obtain rfl := Option.some.inj h
      have hmem := alookup_mem hex
      have hp1 : ((info.id, pr) : Nat × (Nat × Nat)).2.1 = info.placement_group :=
        hcons (info.id, pr) hmem rfl
      obtain ⟨q, hq, hle⟩ := hglob (info.id, pr) hmem
      rw [hp1] at hq
      obtain rfl : pg = q := by rw [hpg] at hq; exact Option.some.inj hq
      exact ⟨pg, hpg, hle⟩
    | none =>
      simp only [apply_shard_message, hex, Option.isSome_none, Bool.false_eq_true,
        if_false] at h
      cases hadd : add_new_shard_to_map w σ (HS_Shard.make info chunk) with
      | none => simp [hadd] at h
      | some σa =>
        simp only [hadd] at h
        obtain rfl := Option.some.inj h
        obtain ⟨pgq, hpgq, hnew, rfl⟩ := add_new_shard_to_map_eq hadd
        have hpgq' : alookup info.placement_group σ.pg_map = some pgq := hpgq
        obtain rfl : pg = pgq := by rw [hpg] at hpgq'; exact Option.some.inj hpgq'
        refine ⟨{ pg with
            shards := pg.shards ++ [HS_Shard.make info chunk]
            shard_sequence_num :=
              (if pg.shard_sequence_num < get_sequence_num_from_shard_id w info.id
               then get_sequence_num_from_shard_id w info.id
               else pg.shard_sequence_num) }, ?_, ?_⟩
        · show alookup info.placement_group
            (aupdate (HS_Shard.make info chunk).info.placement_group
              (fun q => { q with
                shards := q.shards ++ [HS_Shard.make info chunk]
                shard_sequence_num :=
                  (if q.shard_sequence_num <
                      get_sequence_num_from_shard_id w (HS_Shard.make info chunk).info.id
                   then get_sequence_num_from_shard_id w (HS_Shard.make info chunk).info.id
                   else q.shard_sequence_num) }) σ.pg_map) = _
          have hkey : (HS_Shard.make info chunk).info.placement_group =
              info.placement_group := rfl
          rw [hkey, alookup_aupdate_self, hpg, Option.map_some']
          exact rfl
        · show get_sequence_num_from_shard_id w info.id ≤
            (if pg.shard_sequence_num < get_sequence_num_from_shard_id w info.id
             then get_sequence_num_from_shard_id w info.id
             else pg.shard_sequence_num)
          split <;> omega

/-- Witness for C3: a fresh replica applies CREATE(17, chunk 9) then
CREATE(18, chunk 8) for PG 1 at `w = 4`; the PG sequence ends at 2 = the
maximum of the two CREATE sequences, and a repeated CREATE(17) against the
resulting state (shard already present) still leaves the sequence at least 1. -/
theorem sequence_catch_up_witness :
    (∃ pg, alookup 1
        ((⟨[(1, ⟨2, true, [⟨⟨17, 1, 0, 3, 3, 100, 100, 0⟩, ⟨17, 1, 0, 3, 3, 100, 100, 0, 9⟩⟩,
            ⟨⟨18, 1, 0, 4, 4, 50, 50, 0⟩, ⟨18, 1, 0, 4, 4, 50, 50, 0, 8⟩⟩], none⟩)],
          [(17, (1, 0)), (18, (1, 1))],
          [SelectorCall.select 9, SelectorCall.select 8]⟩ : HOState)).pg_map = some pg ∧
      pg.shard_sequence_num = maxCreateSeq 4
        [⟨ReplicationMessageType.CREATE_SHARD_MSG, ⟨17, 1, 0, 3, 3, 100, 100, 0⟩, 9⟩,
         ⟨ReplicationMessageType.CREATE_SHARD_MSG, ⟨18, 1, 0, 4, 4, 50, 50, 0⟩, 8⟩] ∧
      ∀ e ∈ [(⟨ReplicationMessageType.CREATE_SHARD_MSG, ⟨17, 1, 0, 3, 3, 100, 100, 0⟩, 9⟩ :
          LogEntry),
         ⟨ReplicationMessageType.CREATE_SHARD_MSG, ⟨18, 1, 0, 4, 4, 50, 50, 0⟩, 8⟩],
        e.msg_type = ReplicationMessageType.CREATE_SHARD_MSG →
        get_sequence_num_from_shard_id 4 e.info.id ≤ pg.shard_sequence_num) ∧
    (∃ pg2, alookup 1
        ((⟨[(1, ⟨2, true, [⟨⟨17, 1, 0, 3, 3, 100, 100, 0⟩, ⟨17, 1, 0, 3, 3, 100, 100, 0, 9⟩⟩,
            ⟨⟨18, 1, 0, 4, 4, 50, 50, 0⟩, ⟨18, 1, 0, 4, 4, 50, 50, 0, 8⟩⟩], none⟩)],
          [(17, (1, 0)), (18, (1, 1))],
          [SelectorCall.select 9, SelectorCall.select 8]⟩ : HOState)).pg_map = some pg2 ∧
      get_sequence_num_from_shard_id 4 17 ≤ pg2.shard_sequence_num) := by
  constructor
  · exact sequence_catch_up.1 4 1
      [⟨ReplicationMessageType.CREATE_SHARD_MSG, ⟨17, 1, 0, 3, 3, 100, 100, 0⟩, 9⟩,
       ⟨ReplicationMessageType.CREATE_SHARD_MSG, ⟨18, 1, 0, 4, 4, 50, 50, 0⟩, 8⟩]
      ⟨[(1, ⟨0, true, [], none⟩)], [], []⟩ ⟨0, true, [], none⟩
      ⟨[(1, ⟨2, true, [⟨⟨17, 1, 0, 3, 3, 100, 100, 0⟩, ⟨17, 1, 0, 3, 3, 100, 100, 0, 9⟩⟩,
          ⟨⟨18, 1, 0, 4, 4, 50, 50, 0⟩, ⟨18, 1, 0, 4, 4, 50, 50, 0, 8⟩⟩], none⟩)],
        [(17, (1, 0)), (18, (1, 1))],
        [SelectorCall.select 9, SelectorCall.select 8]⟩
      rfl rfl rfl (by decide) (by decide)
  · refine sequence_catch_up.2 4 ⟨17, 1, 0, 3, 3, 100, 100, 0⟩ 9
      ⟨[(1, ⟨2, true, [⟨⟨17, 1, 0, 3, 3, 100, 100, 0⟩, ⟨17, 1, 0, 3, 3, 100, 100, 0, 9⟩⟩,
          ⟨⟨18, 1, 0, 4, 4, 50, 50, 0⟩, ⟨18, 1, 0, 4, 4, 50, 50, 0, 8⟩⟩], none⟩)],
        [(17, (1, 0)), (18, (1, 1))],
        [SelectorCall.select 9, SelectorCall.select 8]⟩
      ⟨[(1, ⟨2, true, [⟨⟨17, 1, 0, 3, 3, 100, 100, 0⟩, ⟨17, 1, 0, 3, 3, 100, 100, 0, 9⟩⟩,
          ⟨⟨18, 1, 0, 4, 4, 50, 50, 0⟩, ⟨18, 1, 0, 4, 4, 50, 50, 0, 8⟩⟩], none⟩)],
        [(17, (1, 0)), (18, (1, 1))],
        [SelectorCall.select 9, SelectorCall.select 8]⟩
      ⟨2, true, [⟨⟨17, 1, 0, 3, 3, 100, 100, 0⟩, ⟨17, 1, 0, 3, 3, 100, 100, 0, 9⟩⟩,
        ⟨⟨18, 1, 0, 4, 4, 50, 50, 0⟩, ⟨18, 1, 0, 4, 4, 50, 50, 0, 8⟩⟩], none⟩
      rfl (by decide) ?_ (by decide)
    intro pr hpr
    rcases List.mem_cons.1 hpr with rfl | hpr2
    · exact ⟨⟨2, true, [⟨⟨17, 1, 0, 3, 3, 100, 100, 0⟩, ⟨17, 1, 0, 3, 3, 100, 100, 0, 9⟩⟩,
        ⟨⟨18, 1, 0, 4, 4, 50, 50, 0⟩, ⟨18, 1, 0, 4, 4, 50, 50, 0, 8⟩⟩], none⟩, rfl, by decide⟩
    · rcases List.mem_cons.1 hpr2 with rfl | hpr3
      · exact ⟨⟨2, true, [⟨⟨17, 1, 0, 3, 3, 100, 100, 0⟩, ⟨17, 1, 0, 3, 3, 100, 100, 0, 9⟩⟩,
          ⟨⟨18, 1, 0, 4, 4, 50, 50, 0⟩, ⟨18, 1, 0, 4, 4, 50, 50, 0, 8⟩⟩], none⟩, rfl, by decide⟩
      · exact absurd hpr3 (by simp)

/-- A freshly sealed header always passes `corrupted()`. -/
theorem corrupted_sealHeader (h : ReplicationMessageHeader) :
    corrupted (sealHeader h) = false := by
  simp [corrupted, sealHeader, headerBytes]

/-- Witness for C1: a CREATE commit of shard 17 (chunk 9) is applied once from
a fresh PG 1 replica; running the same commit again from the post-state yields
the same state and resolution. -/
theorem commit_idempotent_witness :
    do_shard_message_commit 4
      (⟨[(1, ⟨1, true, [⟨⟨17, 1, 0, 3, 3, 100, 100, 0⟩, ⟨17, 1, 0, 3, 3, 100, 100, 0, 9⟩⟩,
          ], none⟩)], [(17, (1, 0))], [SelectorCall.select 9]⟩ : HOState) 0
      (sealHeader ⟨ReplicationMessageType.CREATE_SHARD_MSG, 1, 17,
        (serialize_shard_info ⟨17, 1, 0, 3, 3, 100, 100, 0⟩).length,
        crc32_ieee init_crc32 (serialize_shard_info ⟨17, 1, 0, 3, 3, 100, 100, 0⟩), 0⟩)
      9 (serialize_shard_info ⟨17, 1, 0, 3, 3, 100, 100, 0⟩) true =
    some (⟨[(1, ⟨1, true, [⟨⟨17, 1, 0, 3, 3, 100, 100, 0⟩, ⟨17, 1, 0, 3, 3, 100, 100, 0, 9⟩⟩,
        ], none⟩)], [(17, (1, 0))], [SelectorCall.select 9]⟩,
      some (Except.ok ⟨17, 1, 0, 3, 3, 100, 100, 0⟩)) := by
  refine commit_idempotent.1 4 ⟨[(1, ⟨0, true, [], none⟩)], [], []⟩ 0
    (sealHeader ⟨ReplicationMessageType.CREATE_SHARD_MSG, 1, 17,
      (serialize_shard_info ⟨17, 1, 0, 3, 3, 100, 100, 0⟩).length,
      crc32_ieee init_crc32 (serialize_shard_info ⟨17, 1, 0, 3, 3, 100, 100, 0⟩), 0⟩)
    9 (serialize_shard_info ⟨17, 1, 0, 3, 3, 100, 100, 0⟩) true _ _
    (corrupted_sealHeader _) rfl ?_ ?_
  · intro info _ hmsg
    exact absurd hmsg (by decide)
  · rw [do_shard_message_commit]
    rw [if_neg (by rw [corrupted_sealHeader]; exact Bool.false_ne_true)]
    rw [if_neg (fun hne => hne rfl)]
    have hdes : deserialize_shard_info
        (serialize_shard_info (⟨17, 1, 0, 3, 3, 100, 100, 0⟩ : ShardInfo)) =
        some ⟨17, 1, 0, 3, 3, 100, 100, 0⟩ := by
      simpa using deserialize_serialize_pad ⟨17, 1, 0, 3, 3, 100, 100, 0⟩ 0
    simp only [hdes]
    have hap : apply_shard_message 4 ReplicationMessageType.CREATE_SHARD_MSG
        ⟨17, 1, 0, 3, 3, 100, 100, 0⟩ 9 (⟨[(1, ⟨0, true, [], none⟩)], [], []⟩ : HOState) =
        some ⟨[(1, ⟨1, true, [⟨⟨17, 1, 0, 3, 3, 100, 100, 0⟩,
          ⟨17, 1, 0, 3, 3, 100, 100, 0, 9⟩⟩], none⟩)], [(17, (1, 0))],
          [SelectorCall.select 9]⟩ := by
      decide
    have hmt : (sealHeader ⟨ReplicationMessageType.CREATE_SHARD_MSG, 1, 17,
        (serialize_shard_info ⟨17, 1, 0, 3, 3, 100, 100, 0⟩).length,
        crc32_ieee init_crc32 (serialize_shard_info ⟨17, 1, 0, 3, 3, 100, 100, 0⟩),
        0⟩).msg_type = ReplicationMessageType.CREATE_SHARD_MSG := rfl
    rw [hmt]
    simp only [hap]
    rfl

/-- C4: CRC failure handling — when the header is corrupted or the payload
CRC disagrees with `payload_crc`, the committer resolves the proposer's future
(when present) with CRC_MISMATCH and returns the state entirely unchanged: no
shard-map insertion, no shard update, no superblock write and no
chunk-selector call. -/
theorem crc_mismatch_skips_entry (w : Nat) (σ : HOState) (lsn : Nat)
    (header : ReplicationMessageHeader) (chunk : Nat) (value : List Nat)
    (is_proposer : Bool)
    (h : corrupted header = true ∨ crc32_ieee init_crc32 value ≠ header.payload_crc) :
    do_shard_message_commit w σ lsn header chunk value is_proposer =
      some (σ, if is_proposer then some (Except.error ShardError.CRC_MISMATCH) else none) := by
  rcases h with h | h
  · rw [do_shard_message_commit, if_pos h]
  · rw [do_shard_message_commit]
    by_cases hc : corrupted header = true
    · rw [if_pos hc]
    · rw [if_neg hc, if_pos h]

/-- Witness for C4: a sealed header claiming `payload_crc = 1` over an empty
payload (whose CRC is 0) is skipped with CRC_MISMATCH and an unchanged state. -/
theorem crc_mismatch_skips_entry_witness :
    crc32_ieee init_crc32 [] ≠
      (sealHeader ⟨ReplicationMessageType.CREATE_SHARD_MSG, 1, 17, 0, 1, 0⟩).payload_crc ∧
    do_shard_message_commit 4 (⟨[], [], []⟩ : HOState) 0
      (sealHeader ⟨ReplicationMessageType.CREATE_SHARD_MSG, 1, 17, 0, 1, 0⟩) 0 [] true =
      some ((⟨[], [], []⟩ : HOState), some (Except.error ShardError.CRC_MISMATCH)) := by
  constructor
  · decide
  · exact crc_mismatch_skips_entry 4 ⟨[], [], []⟩ 0
      (sealHeader ⟨ReplicationMessageType.CREATE_SHARD_MSG, 1, 17, 0, 1, 0⟩) 0 [] true
      (Or.inr (by decide))

/-- Counterexample for C5: with PG 9 absent from the PG map, `_seal_shard`
hits a `RELEASE_ASSERT` (process abort, modelled `none`) — it does not fail
recoverably with UNKNOWN_PG as the claim states. -/
theorem seal_shard_unknown_pg_cex :
    _seal_shard 4 (⟨[], [], []⟩ : HOState) ⟨17, 9, 0, 3, 5, 100, 100, 0⟩ = none ∧
    _seal_shard 4 (⟨[], [], []⟩ : HOState) ⟨17, 9, 0, 3, 5, 100, 100, 0⟩ ≠
      some (Except.error ShardError.UNKNOWN_PG, (⟨[], [], []⟩ : HOState)) := by
  have h1 : _seal_shard 4 (⟨[], [], []⟩ : HOState) ⟨17, 9, 0, 3, 5, 100, 100, 0⟩ = none := rfl
  refine ⟨h1, ?_⟩
  rw [h1]
  simp

/-- C5 amended: `_seal_shard` asserts (process abort) both when the PG is
absent and when its replication handle is null, unlike `_create_shard`, which
on those same conditions fails recoverably with UNKNOWN_PG and PG_NOT_READY
respectively. -/
theorem seal_error_contract_amended :
    (∀ (bs : Nat) (σ : HOState) (info : ShardInfo),
      alookup info.placement_group σ.pg_map = none → _seal_shard bs σ info = none) ∧
    (∀ (bs : Nat) (σ : HOState) (info : ShardInfo) (pg : HS_PG),
      alookup info.placement_group σ.pg_map = some pg → pg.repl_dev = false →
      _seal_shard bs σ info = none) ∧
    (∀ (w bs : Nat) (σ : HOState) (pgid size now : Nat),
      alookup pgid σ.pg_map = none →
      _create_shard w bs σ pgid size now = some (Except.error ShardError.UNKNOWN_PG, σ)) ∧
    (∀ (w bs : Nat) (σ : HOState) (pgid size now : Nat) (pg : HS_PG),
      alookup pgid σ.pg_map = some pg → pg.repl_dev = false →
      _create_shard w bs σ pgid size now =
        some (Except.error ShardError.PG_NOT_READY, σ)) := by
  refine ⟨?_, ?_, ?_, ?_⟩
  · intro bs σ info h
    simp [_seal_shard, h]
  · intro bs σ info pg h hrepl
    simp [_seal_shard, h, hrepl]
  · intro w bs σ pgid size now h
    simp [_create_shard, h]
  · intro w bs σ pgid size now pg h hrepl
    simp [_create_shard, h, hrepl]

/-- Witness for C5 (amended): both seal-side aborts and both create-side
recoverable failures, at concrete states. -/
theorem seal_error_contract_witness :
    _seal_shard 4 (⟨[], [], []⟩ : HOState) ⟨17, 9, 0, 3, 5, 100, 100, 0⟩ = none ∧
    _seal_shard 4 (⟨[(9, ⟨0, false, [], none⟩)], [], []⟩ : HOState)
      ⟨17, 9, 0, 3, 5, 100, 100, 0⟩ = none ∧
    _create_shard 4 4 (⟨[], [], []⟩ : HOState) 9 100 7 =
      some (Except.error ShardError.UNKNOWN_PG, (⟨[], [], []⟩ : HOState)) ∧
    _create_shard 4 4 (⟨[(9, ⟨0, false, [], none⟩)], [], []⟩ : HOState) 9 100 7 =
      some (Except.error ShardError.PG_NOT_READY,
        (⟨[(9, ⟨0, false, [], none⟩)], [], []⟩ : HOState)) :=
  ⟨seal_error_contract_amended.1 4 ⟨[], [], []⟩ ⟨17, 9, 0, 3, 5, 100, 100, 0⟩ rfl,
   seal_error_contract_amended.2.1 4 ⟨[(9, ⟨0, false, [], none⟩)], [], []⟩
     ⟨17, 9, 0, 3, 5, 100, 100, 0⟩ ⟨0, false, [], none⟩ rfl rfl,
   seal_error_contract_amended.2.2.1 4 4 ⟨[], [], []⟩ 9 100 7 rfl,
   seal_error_contract_amended.2.2.2 4 4 ⟨[(9, ⟨0, false, [], none⟩)], [], []⟩ 9 100 7
     ⟨0, false, [], none⟩ rfl rfl⟩

/-- Counterexample for C9: a SEAL commit against an OPEN shard whose stored
`last_modified_time` is 5, with a payload carrying `last_modified_time = 7`,
stores 7 — the proposer-supplied payload value carried unchanged, not a value
refreshed by the committer. -/
theorem seal_timestamp_cex :
    (apply_shard_message 4 ReplicationMessageType.SEAL_SHARD_MSG ⟨17, 1, 1, 3, 7, 100, 50, 0⟩ 0
        (⟨[(1, ⟨1, true, [⟨⟨17, 1, 0, 3, 5, 100, 50, 0⟩, ⟨17, 1, 0, 3, 5, 50, 100, 0, 9⟩⟩],
          none⟩)], [(17, (1, 0))], []⟩ : HOState)).map
      (fun σ => (derefShard σ 17).map (fun s => s.info.last_modified_time)) =
        some (some 7) ∧
    (7 : Nat) ≠ 5 := by
  constructor
  · decide
  · decide

/-- C9 amended: on a SEAL commit applied to an OPEN shard the committer stores
the payload's `ShardInfo` verbatim — `last_modified_time` included — and the
proposer (`_seal_shard`) submits the supplied `ShardInfo` changed only in
`state := SEALED`; no re-stamping happens anywhere. -/
theorem seal_keeps_proposer_timestamp :
    (∀ (w : Nat) (info : ShardInfo) (chunk : Nat) (σ σ' : HOState) (s : HS_Shard),
      derefShard σ info.id = some s → s.info.state = OPEN →
      apply_shard_message w ReplicationMessageType.SEAL_SHARD_MSG info chunk σ = some σ' →
      (derefShard σ' info.id).map (fun t => t.info) = some info) ∧
    (∀ (bs : Nat) (σ : HOState) (info : ShardInfo) (pg : HS_PG),
      alookup info.placement_group σ.pg_map = some pg → pg.repl_dev = true →
      ∃ h, _seal_shard bs σ info =
        some (Except.ok ⟨h, padPayload bs
          (serialize_shard_info { info with state := SEALED })⟩, σ)) := by
  constructor
  · intro w info chunk σ σ' s hd hOpen h
    simp only [apply_shard_message, hd, Option.map_some'] at h
    rw [if_pos hOpen] at h
    have hchunk : get_shard_chunk σ info.id = some s.sb.chunk_id := by
      rw [get_shard_chunk, hd, Option.map_some']
    simp only [hchunk] at h
    obtain ⟨p, i, pg0, su, hsm, hpg, hget, rfl⟩ := update_shard_in_map_eq h
    have hd1 := deref_after_update_self
      { σ with sel_calls := σ.sel_calls ++ [SelectorCall.release s.sb.chunk_id] }
      info p i pg0 su hsm hpg hget
    rw [hd1, Option.map_some']
    exact rfl
  · intro bs σ info pg hpg hrepl
    refine ⟨sealHeader
      { msg_type := ReplicationMessageType.SEAL_SHARD_MSG
        pg_id := info.placement_group
        shard_id := info.id
        payload_size := (padPayload bs
          (serialize_shard_info { info with state := SEALED })).length
        payload_crc := (crc32_ieee init_crc32 (padPayload bs
          (serialize_shard_info { info with state := SEALED })))
        header_crc := 0 }, ?_⟩
    simp only [_seal_shard, hpg, hrepl]
    rfl

/-- Witness for C9 (amended): the concrete SEAL of shard 17 stores exactly the
payload record (`last_modified_time = 7`), and the concrete `_seal_shard`
submission carries the supplied record with only `state` flipped to SEALED. -/
theorem seal_keeps_proposer_timestamp_witness :
    (derefShard (⟨[(1, ⟨1, true, [⟨⟨17, 1, 1, 3, 7, 100, 50, 0⟩,
        ⟨17, 1, 1, 3, 7, 50, 100, 0, 9⟩⟩], none⟩)], [(17, (1, 0))],
      [SelectorCall.release 9]⟩ : HOState) 17).map (fun t => t.info) =
      some ⟨17, 1, 1, 3, 7, 100, 50, 0⟩ ∧
    (∃ h, _seal_shard 4 (⟨[(1, ⟨1, true, [⟨⟨17, 1, 0, 3, 5, 100, 50, 0⟩,
        ⟨17, 1, 0, 3, 5, 50, 100, 0, 9⟩⟩], none⟩)], [(17, (1, 0))], []⟩ : HOState)
      ⟨17, 1, 0, 3, 5, 100, 50, 0⟩ =
        some (Except.ok ⟨h, padPayload 4 (serialize_shard_info
          { (⟨17, 1, 0, 3, 5, 100, 50, 0⟩ : ShardInfo) with state := SEALED })⟩,
          (⟨[(1, ⟨1, true, [⟨⟨17, 1, 0, 3, 5, 100, 50, 0⟩,
            ⟨17, 1, 0, 3, 5, 50, 100, 0, 9⟩⟩], none⟩)], [(17, (1, 0))], []⟩ : HOState))) := by
  constructor
  · exact seal_keeps_proposer_timestamp.1 4 ⟨17, 1, 1, 3, 7, 100, 50, 0⟩ 0
      (⟨[(1, ⟨1, true, [⟨⟨17, 1, 0, 3, 5, 100, 50, 0⟩, ⟨17, 1, 0, 3, 5, 50, 100, 0, 9⟩⟩],
        none⟩)], [(17, (1, 0))], []⟩ : HOState)
      (⟨[(1, ⟨1, true, [⟨⟨17, 1, 1, 3, 7, 100, 50, 0⟩, ⟨17, 1, 1, 3, 7, 50, 100, 0, 9⟩⟩],
        none⟩)], [(17, (1, 0))], [SelectorCall.release 9]⟩ : HOState)
      ⟨⟨17, 1, 0, 3, 5, 100, 50, 0⟩, ⟨17, 1, 0, 3, 5, 50, 100, 0, 9⟩⟩
      (by decide) (by decide) (by decide)
  · exact seal_keeps_proposer_timestamp.2 4
      (⟨[(1, ⟨1, true, [⟨⟨17, 1, 0, 3, 5, 100, 50, 0⟩, ⟨17, 1, 0, 3, 5, 50, 100, 0, 9⟩⟩],
        none⟩)], [(17, (1, 0))], []⟩ : HOState)
      ⟨17, 1, 0, 3, 5, 100, 50, 0⟩
      ⟨1, true, [⟨⟨17, 1, 0, 3, 5, 100, 50, 0⟩, ⟨17, 1, 0, 3, 5, 50, 100, 0, 9⟩⟩], none⟩
      rfl rfl

/-- C10: the two public lookups treat unknown keys differently —
`get_any_chunk_id` asserts the PG exists (aborting on an unknown PG, never
returning `nullopt` for one), a `nullopt` result implies the PG exists with no
shards and no cached chunk (and an unchanged state), while `get_shard_chunk`
returns `nullopt` for an unknown shard ID instead of asserting. -/
theorem lookup_unknown_key_contract :
    (∀ (σ : HOState) (pgid : Nat), alookup pgid σ.pg_map = none →
      get_any_chunk_id σ pgid = none) ∧
    (∀ (σ : HOState) (pgid : Nat) (r : Option Nat × HOState),
      get_any_chunk_id σ pgid = some r → ∃ pg, alookup pgid σ.pg_map = some pg) ∧
    (∀ (σ : HOState) (pgid : Nat) (σ' : HOState),
      get_any_chunk_id σ pgid = some (none, σ') →
      ∃ pg, alookup pgid σ.pg_map = some pg ∧ pg.shards = [] ∧
        pg.any_allocated_chunk_id = none ∧ σ' = σ) ∧
    (∀ (σ : HOState) (id : Nat), alookup id σ.shard_map = none →
      get_shard_chunk σ id = none) := by
  refine ⟨?_, ?_, ?_, ?_⟩
  · intro σ pgid h
    simp [get_any_chunk_id, h]
  · intro σ pgid r h
    cases hpg : alookup pgid σ.pg_map with
    | none => simp [get_any_chunk_id, hpg] at h
    | some pg => exact ⟨pg, rfl⟩
  · intro σ pgid σ' h
    cases hpg : alookup pgid σ.pg_map with
    | none => simp [get_any_chunk_id, hpg] at h
    | some pg =>
      simp only [get_any_chunk_id, hpg] at h
      cases hany : pg.any_allocated_chunk_id with
      | some c =>
        rw [hany] at h
        have := Option.some.inj h
        rw [Prod.mk.injEq] at this
        exact absurd this.1 (by simp)
      | none =>
        rw [hany] at h
        cases hsh : pg.shards with
        | nil =>
          rw [hsh] at h
          have := Option.some.inj h
          rw [Prod.mk.injEq] at this
          exact ⟨pg, rfl, hsh, hany, this.2.symm⟩
        | cons s t =>
          rw [hsh] at h
          have := Option.some.inj h
          rw [Prod.mk.injEq] at this
          exact absurd this.1 (by simp)
  · intro σ id h
    simp [get_shard_chunk, derefShard, h]

/-- Witness for C10: on a state with an empty PG 1 and no shards,
`get_any_chunk_id` aborts for unknown PG 9, returns `nullopt` with an
unchanged state for PG 1, and `get_shard_chunk` returns `none` for the
unknown shard 17. -/
theorem lookup_unknown_key_contract_witness :
    get_any_chunk_id (⟨[(1, ⟨0, true, [], none⟩)], [], []⟩ : HOState) 9 = none ∧
    (∃ pg, alookup 1 ((⟨[(1, ⟨0, true, [], none⟩)], [], []⟩ : HOState)).pg_map = some pg ∧
      pg.shards = [] ∧ pg.any_allocated_chunk_id = none ∧
      (⟨[(1, ⟨0, true, [], none⟩)], [], []⟩ : HOState) =
        (⟨[(1, ⟨0, true, [], none⟩)], [], []⟩ : HOState)) ∧
    get_shard_chunk (⟨[(1, ⟨0, true, [], none⟩)], [], []⟩ : HOState) 17 = none :=
  ⟨lookup_unknown_key_contract.1 ⟨[(1, ⟨0, true, [], none⟩)], [], []⟩ 9 rfl,
   lookup_unknown_key_contract.2.2.1 ⟨[(1, ⟨0, true, [], none⟩)], [], []⟩ 1
     ⟨[(1, ⟨0, true, [], none⟩)], [], []⟩ (by decide),
   lookup_unknown_key_contract.2.2.2 ⟨[(1, ⟨0, true, [], none⟩)], [], []⟩ 17 rfl⟩

end homeobject
